import Mathlib

/-!
Verification of the multi-agent research orchestrator (Lead Research Agent,
Search Subagent, Citation Agent) against its natural-language specification.

The TypeScript sources are shallowly embedded: JavaScript numbers used for
relevance scores are modelled as rationals, with a small JSNum type capturing
NaN and the infinities where a division by zero can occur; JavaScript's
truthiness coercions on optional values are modelled explicitly; external
calls (the completion client, the search tool, the JSON parser, the memory
store) are oracles threaded through the definitions; the randomUUID id
generator is modelled as an injective fresh-name supply.
-/

namespace Heavy

/-! ## JavaScript number and truthiness primitives -/

/-- Model of a JavaScript number as used in score arithmetic: a rational,
NaN, or an infinity. -/
inductive JSNum where
  | num (q : ℚ)
  | nan
  | posInf
  | negInf
deriving DecidableEq, Repr

/-- JavaScript strict less-than on numbers: any comparison involving NaN is
false. -/
def jsLt : JSNum → JSNum → Bool
  | JSNum.num a, JSNum.num b => decide (a < b)
  | JSNum.nan, _ => false
  | _, JSNum.nan => false
  | JSNum.negInf, JSNum.negInf => false
  | JSNum.negInf, _ => true
  | _, JSNum.negInf => false
  | JSNum.posInf, _ => false
  | JSNum.num _, JSNum.posInf => true

/-- JavaScript division of two rational-valued numbers: division by zero
yields NaN (for 0/0) or a signed infinity. -/
def jsDiv (a b : ℚ) : JSNum :=
  if b = 0 then
    if a = 0 then JSNum.nan else if a > 0 then JSNum.posInf else JSNum.negInf
  else JSNum.num (a / b)

/-- JavaScript value-or-default on an optional count, as in the source's
pattern of writing x || d for a possibly-undefined numeric field: undefined
and 0 are falsy and give the default. -/
def jsOrNat (v : Option ℕ) (d : ℕ) : ℕ :=
  match v with
  | none => d
  | some 0 => d
  | some n => n

/-- JavaScript value-or-default on an optional rational score: undefined and
0 are falsy and give the default. -/
def jsOrQ (v : Option ℚ) (d : ℚ) : ℚ :=
  match v with
  | none => d
  | some q => if q = 0 then d else q

/-- JavaScript truthiness of an optional string: present and non-empty. -/
def jsTruthyStr (v : Option String) : Bool :=
  match v with
  | none => false
  | some s => decide (s ≠ "")

/-- JavaScript truthiness of an optional boolean field. -/
def jsTruthyBool (v : Option Bool) : Bool :=
  match v with
  | none => false
  | some b => b

/-! ## Decimal rendering of natural numbers

JavaScript renders integers in decimal when interpolated into strings and
when randomUUID-style ids are compared; we model the rendering with an
injective digits function. -/

/-- Character for one decimal digit. -/
def digitChar (n : ℕ) : Char := Char.ofNat (48 + n)

/-- Fuelled helper for the decimal digits of a natural number; the fuel is
structural so that the function reduces inside the kernel. -/
def natDigitsAux : ℕ → ℕ → List Char
  | 0, _ => []
  | fuel + 1, n =>
      if n < 10 then [digitChar n]
      else natDigitsAux fuel (n / 10) ++ [digitChar (n % 10)]

/-- Most-significant-first decimal digits of a natural number. -/
def natDigits (n : ℕ) : List Char := natDigitsAux (n + 1) n

/-- Decimal string of a natural number. -/
def natToStr (n : ℕ) : String := String.mk (natDigits n)

/-! ## Data model (from the schemas module) -/

/-- One web search result with its relevance score. -/
structure SearchResult where
  url : String
  title : String
  snippet : String
  content : Option String
  relevance_score : ℚ
deriving DecidableEq, Repr

/-- One extracted factual finding. -/
structure Finding where
  finding : String
  source_title : String
  source_url : String
  confidence : ℚ
  ftype : String
deriving DecidableEq, Repr

inductive TaskStatus where
  | pending
  | running
  | completed
  | failed
deriving DecidableEq, Repr

/-- One research subtask dispatched to a Search Subagent. -/
structure SubAgentTask where
  task_id : String
  objective : String
  search_focus : String
  expected_output_format : String
  max_searches : Option ℕ
  status : TaskStatus
deriving DecidableEq, Repr

/-- The result a Search Subagent returns for one subtask. -/
structure SubAgentResult where
  task_id : String
  findings : List Finding
  sources : List SearchResult
  summary : String
  token_count : ℕ
deriving DecidableEq, Repr

/-- A research plan produced by the planning step. -/
structure ResearchPlan where
  plan_id : String
  strategy : String
  subtasks : List SubAgentTask
  estimated_complexity : String
deriving DecidableEq, Repr

/-- The immutable research query input. -/
structure ResearchQuery where
  query : String
  max_subagents : Option ℕ
  max_iterations : Option ℕ
deriving DecidableEq, Repr

/-- The mutable per-session state record owned by the Lead Agent. -/
structure ResearchContext where
  research_id : String
  query : String
  plan : ResearchPlan
  completed_tasks : List SubAgentResult
  pending_tasks : List SubAgentTask
  iteration_count : ℕ
  total_tokens_used : ℕ
  start_time : ℕ
deriving DecidableEq, Repr

/-- One bibliography citation. -/
structure Citation where
  id : String
  url : String
  title : String
  snippet : String
  relevance : ℚ
deriving DecidableEq, Repr

/-- The terminal research artifact. -/
structure ResearchResult where
  research_id : String
  query : String
  report : String
  citations : List Citation
  sources_used : List SearchResult
  total_tokens_used : ℕ
  execution_time : ℕ
deriving DecidableEq, Repr

/-! ## String search utilities and the hostname model -/

/-- Index of the first occurrence of a pattern in a character list, as
JavaScript indexOf (0 for the empty pattern). -/
def subIndex? (pat : List Char) : List Char → Option ℕ
  | [] => if pat.isEmpty then some 0 else none
  | c :: t =>
      if pat.isPrefixOf (c :: t) then some 0
      else (subIndex? pat t).map (fun i => i + 1)

/-- JavaScript String.prototype.includes. -/
def strContains (s pat : String) : Bool := (subIndex? pat.data s.data).isSome

/-- Drop a URL scheme (everything through the first occurrence of the
scheme separator) from a character list. -/
def dropScheme (cs : List Char) : List Char :=
  match subIndex? (String.data "://") cs with
  | none => cs
  | some i => cs.drop (i + 3)

/-- Model of the hostname property of the platform URL API: the characters
of the URL after the scheme separator up to the first path, port, query or
fragment delimiter. The URL constructor itself is an external platform
capability; this model captures the hostname extraction the citation and
search agents rely on. -/
def hostname (url : String) : String :=
  String.mk ((dropScheme url.data).takeWhile
    (fun c => c ≠ '/' && c ≠ ':' && c ≠ '?' && c ≠ '#'))

/-! ## Duck-typed structured thinking values

BaseAgent.think returns an arbitrary JSON-or-text value probed by field
access; ThinkV is the union of the optional fields the research pipeline
reads off such values. -/

/-- Raw planning subtask as parsed from the planning response. -/
structure RawSubtask where
  objective : String
  search_focus : String
  expected_output_format : String
  max_searches : Option ℕ
deriving DecidableEq, Repr

/-- Raw follow-up task description as parsed from the follow-up response. -/
structure RawFollowup where
  reason : String
  additional_queries : Option (List String)
  focus_areas : Option (List String)
deriving DecidableEq, Repr

/-- One relevance evaluation entry as parsed from the evaluation response. -/
structure EvalEntry where
  index : ℤ
  relevance_score : Option ℚ
deriving DecidableEq, Repr

/-- Duck-typed result of a structured think call, with every optional field
the pipeline probes. -/
structure ThinkV where
  error : Option String := none
  analysis : Option String := none
  planField : Option Bool := none
  strategy : Option String := none
  estimated_complexity : Option String := none
  subtasks : Option (List RawSubtask) := none
  needs_followup : Option Bool := none
  followup_tasks : Option (List RawFollowup) := none
  evaluations : Option (List EvalEntry) := none
  best_match_index : Option ℤ := none
  confidence : Option ℚ := none
deriving DecidableEq, Repr

/-! ## Search Subagent result evaluation (claim C7) -/

/-- Authoritative domain suffixes of the fallback scorer. -/
def authorityDomains : List String := [".edu", ".gov", ".org"]

/-- Fallback domain-authority test from the evaluation fallback path. -/
def hasAuthorityDomain (url : String) : Bool :=
  authorityDomains.any (fun suffix => strContains (hostname url) suffix)

/-- One step of the evaluation-application loop of
SearchSubAgent evaluateResults: a valid-index entry rewrites the result's
relevance score (0.5 when the parsed score is absent or falsy) and keeps the
result when the rewritten score reaches 0.6. -/
def evalStep (results : List SearchResult) (acc : List SearchResult)
    (e : EvalEntry) : List SearchResult :=
  if 0 ≤ e.index ∧ e.index < results.length then
    match results[e.index.toNat]? with
    | none => acc
    | some r =>
        let score := jsOrQ e.relevance_score (1/2)
        if 6/10 ≤ score then acc ++ [{ r with relevance_score := score }] else acc
  else acc

/-- Embedding of SearchSubAgent evaluateResults. When the scoring think call
failed or returned no evaluations field, fall back to the domain-authority
heuristic (authority suffixes score 0.7, others 0.5, keep at least 0.5);
otherwise apply each evaluation entry in order. -/
def evaluateResults (tv : ThinkV) (results : List SearchResult) :
    List SearchResult :=
  if jsTruthyStr tv.error || tv.evaluations.isNone then
    (results.map (fun r =>
      { r with relevance_score :=
          if hasAuthorityDomain r.url then 7/10 else 1/2 })).filter
      (fun r => decide ((1:ℚ)/2 ≤ r.relevance_score))
  else
    (tv.evaluations.getD []).foldl (evalStep results) []

/-! ## Sufficiency heuristic of the Lead Agent (claim C4) -/

/-- Sum of relevance scores, as the source's reduce over the flattened
source list. -/
def sumScores (l : List SearchResult) : ℚ :=
  l.foldl (fun s r => s + r.relevance_score) 0

/-- Embedding of LeadResearchAgent needsMoreResearch: the evidence so far is
insufficient when the flattened source count is below 8 or the average
relevance (a JavaScript division, NaN when the source list is empty while
results is not) is below 0.7. -/
def needsMoreResearch (results : List SubAgentResult) : Bool :=
  let sources := results.flatMap (fun r => r.sources)
  let totalSources := sources.length
  let avgRelevance : JSNum :=
    if results.length > 0 then jsDiv (sumScores sources) totalSources
    else JSNum.num 0
  decide (totalSources < 8) || jsLt avgRelevance (JSNum.num (7/10))

/-- First-seen deduplication of search results by URL. -/
def dedupByUrl (l : List SearchResult) : List SearchResult :=
  l.foldl (fun acc r => if acc.any (fun x => x.url = r.url) then acc else acc ++ [r]) []

/-- Spec-side sufficiency heuristic, following the claim's words: insufficient
when the number of DISTINCT sources is below 8 or the average relevance over
all collected sources is below 0.7. Stated for comparison with the source's
needsMoreResearch, which does not deduplicate. -/
def needsMoreResearchSpec (results : List SubAgentResult) : Bool :=
  let sources := results.flatMap (fun r => r.sources)
  let distinct := dedupByUrl sources
  decide (distinct.length < 8) ||
    (decide (sources.length ≠ 0) &&
      decide (sumScores sources / sources.length < 7/10))

/-- Eight copies of one identical high-relevance source, spread over one
completed subtask: a concrete input separating the code from the claim. -/
def c4Source : SearchResult :=
  { url := "https://example.org/a", title := "A", snippet := "s"
    content := none, relevance_score := 9/10 }

def c4Results : List SubAgentResult :=
  [{ task_id := "t1", findings := [], sources := List.replicate 8 c4Source
     summary := "s", token_count := 0 }]

/-! ## Inputs and auxiliary values for claim C7 -/

def dummySearchResult : SearchResult :=
  { url := "", title := "", snippet := "", content := none, relevance_score := 0 }

instance : Inhabited SearchResult := ⟨dummySearchResult⟩

/-- Think value that re-submits a source list's own scores as evaluations,
used to express that re-filtering an already-filtered list is stable. -/
def selfEvalTV (l : List SearchResult) : ThinkV :=
  { evaluations := some (l.mapIdx (fun i _ =>
      EvalEntry.mk (i : ℤ) (some ((l.getD i dummySearchResult).relevance_score)))) }

/-- Think outcome of a failed scoring call. -/
def c7Think : ThinkV := { error := some "Scoring call failed" }

/-- Non-authority search result carrying a relevance score below 0.6. -/
def c7Result : SearchResult :=
  { url := "http://example.com/a", title := "Example", snippet := "snippet"
    content := none, relevance_score := 1/2 }

def w7results : List SearchResult :=
  [{ url := "https://a.org/x", title := "A", snippet := "sa"
     content := none, relevance_score := 1/2 },
   { url := "https://b.com/y", title := "B", snippet := "sb"
     content := none, relevance_score := 1/2 }]

def w7f : ℕ → ℚ := fun i => if i = 0 then 4/5 else 7/10

def w7es : List EvalEntry := w7results.mapIdx (fun i _ => EvalEntry.mk (i : ℤ) (some (w7f i)))

def w7tv : ThinkV := { evaluations := some w7es }

/-! ## Citation Agent bibliography (claim C9) -/

/-- Model of JavaScript Number.prototype.toFixed with two digits on a
non-negative rational: round half up to two decimals and render with a
two-digit fraction part. -/
def toFixed2 (q : ℚ) : String :=
  let n : ℕ := (Int.floor (q * 100 + 1/2)).toNat
  natToStr (n / 100) ++ "." ++
    (if n % 100 < 10 then "0" ++ natToStr (n % 100) else natToStr (n % 100))

/-- Sum of citation relevances, as the source's reduce with initial 0. -/
def sumRelevances (citations : List Citation) : ℚ :=
  citations.foldl (fun s c => s + c.relevance) 0

/-- Embedding of CitationAgent generateBibliography. The access date of the
platform Date API is passed in as today; the URL hostname uses the hostname
model. An empty citation list returns the report untouched; otherwise the
references block of the source's template literal is appended. -/
def generateBibliography (today report : String) (citations : List Citation) :
    String :=
  if citations.length = 0 then report
  else
    report ++ "\n\n## References\n\n" ++
      String.intercalate "\n\n" (citations.map (fun citation =>
        "[" ++ citation.id ++ "] " ++ citation.title ++ ". " ++
          hostname citation.url ++ ". " ++ citation.url ++
          " (accessed " ++ today ++ ")")) ++
      "\n\n---\n*Total sources cited: " ++ natToStr citations.length ++
      "*\n*Average source relevance: " ++
      toFixed2 (sumRelevances citations / citations.length) ++ "*"

/-- Concrete citation for the C9 witness. -/
def w9citation : Citation :=
  { id := "1", url := "https://example.org/x", title := "T"
    snippet := "s", relevance := 9/10 }

/-! ## Planning and its fallback (claim C5) -/

/-- JavaScript value-or-default on an optional string, with the empty string
falsy. -/
def jsOrStr (v : Option String) (d : String) : String :=
  if jsTruthyStr v then v.getD "" else d

/-- First index of a character in a character list. -/
def firstIdxOf (c : Char) : List Char → Option ℕ
  | [] => none
  | x :: t => if x = c then some 0 else (firstIdxOf c t).map (fun i => i + 1)

/-- Last index of a character in a character list. -/
def lastIdxOf (c : Char) (l : List Char) : Option ℕ :=
  (firstIdxOf c l.reverse).map (fun i => l.length - 1 - i)

/-- Model of the greedy brace-extraction regex of the source (an opening
brace through the last closing brace): the substring from the first opening
brace to the last closing brace, when the latter comes after the former. -/
def extractBraced (s : String) : Option String :=
  match firstIdxOf '{' s.data, lastIdxOf '}' s.data with
  | some i, some j =>
      if i < j then some (String.mk ((s.data.drop i).take (j - i + 1))) else none
  | some _, none => none
  | none, _ => none

/-- The randomUUID generator of the schemas module, modelled as an injective
fresh-name supply indexed by a counter. -/
def uuid (n : ℕ) : String := "uuid-" ++ natToStr n

/-- Embedding of BaseAgent think on a completion outcome: a failed
completion yields an error value; otherwise the brace-extraction regex plus
the external JSON parser produce a structured value, falling back to a raw
analysis value. -/
def think (completion : Except String String)
    (parse : String → Option ThinkV) : ThinkV :=
  match completion with
  | Except.error e => { error := some e }
  | Except.ok text =>
      match extractBraced text with
      | some m =>
          match parse m with
          | some tv => tv
          | none => { analysis := some text }
      | none => { analysis := some text }

/-- Default single subtask used when no subtasks can be extracted from the
planning response. -/
def defaultRawSubtask (q : ResearchQuery) : RawSubtask :=
  { objective := q.query
    search_focus := "Comprehensive information gathering"
    expected_output_format := "Key findings and insights"
    max_searches := some 5 }

/-- Embedding of LeadResearchAgent createResearchPlan on the outcome of the
planning think call. A truthy error field throws; otherwise when the value
carries an analysis or plan field, the brace regex plus the JSON parser
re-extract a plan object (keeping the think value on failure); missing
subtasks fall back to the single default task; each subtask receives a fresh
task id and the plan a fresh plan id from the uuid supply. -/
def createResearchPlan (q : ResearchQuery) (tv : ThinkV) (stringifyTv : String)
    (parse : String → Option ThinkV) (ctr : ℕ) :
    Except String ResearchPlan × ℕ :=
  if jsTruthyStr tv.error then
    (Except.error ("Planning failed: " ++ tv.error.getD ""), ctr)
  else
    let planData :=
      if jsTruthyStr tv.analysis || jsTruthyBool tv.planField then
        let textResponse :=
          if jsTruthyStr tv.analysis then tv.analysis.getD "" else stringifyTv
        match extractBraced textResponse with
        | some m =>
            match parse m with
            | some p => p
            | none => tv
        | none => tv
      else tv
    let raw := planData.subtasks.getD [defaultRawSubtask q]
    let subtasks : List SubAgentTask := raw.mapIdx (fun i t =>
      { task_id := uuid (ctr + i)
        objective := t.objective
        search_focus := t.search_focus
        expected_output_format := t.expected_output_format
        max_searches := some (jsOrNat t.max_searches 5)
        status := TaskStatus.pending })
    (Except.ok
      { plan_id := uuid (ctr + raw.length)
        strategy := jsOrStr planData.strategy
          "Comprehensive multi-angle research approach"
        subtasks := subtasks
        estimated_complexity := jsOrStr planData.estimated_complexity "moderate" },
     ctr + raw.length + 1)

/-! ## Lead Research Agent coordination (claims C1, C2, C8, C10)

conductResearch is embedded as a total function of an environment of oracle
outcomes for every external call: the planning and follow-up think calls,
the subagent executions, the synthesis completion, and the citation agent.
The memory store never throws (every MemoryStore method swallows its redis
errors), so its writes appear only as the recorded status log; the
randomUUID supply is the uuid counter threaded through the state. -/

/-- Follow-up task description produced by createFollowupTasks. -/
structure FollowUpTask where
  task_id : String
  reason : String
  additional_queries : List String
  focus_areas : List String
deriving DecidableEq, Repr

/-- Oracle outcomes for every external call the Lead Agent makes. -/
structure LeadEnv where
  planThink : ThinkV
  stringifyPlanThink : String
  parseJson : String → Option ThinkV
  runTaskCore : SubAgentTask →
    Except String (List Finding × List SearchResult × String × ℕ)
  followupThink : ℕ → ThinkV
  synthesis : Except String String
  citeStep : String → List SearchResult → Except String (String × List Citation)

/-- The Search Subagent's executeTask as seen by the Lead Agent: the task id
of the returned result is always the executed task's id (both variants of
executeTask build the result with the task's own id). -/
def runTask (env : LeadEnv) (task : SubAgentTask) : Except String SubAgentResult :=
  match env.runTaskCore task with
  | Except.ok (f, s, summary, tk) =>
      Except.ok { task_id := task.task_id, findings := f, sources := s
                  summary := summary, token_count := tk }
  | Except.error e => Except.error e

/-- Outcome of one dispatched task inside executePendingTasks: a throwing
executeTask is caught and yields the empty result carrying the error in its
summary. -/
def taskOutcome (env : LeadEnv) (task : SubAgentTask) : SubAgentResult :=
  match runTask env task with
  | Except.ok r => r
  | Except.error e =>
      { task_id := task.task_id, findings := [], sources := []
        summary := "Task failed: " ++ e, token_count := 0 }

/-- Embedding of LeadResearchAgent executePendingTasks: dispatch up to
maxConcurrent pending tasks together and join them, one settled result per
dispatched task in dispatch order. -/
def executePendingTasks (env : LeadEnv) (maxAgents : Option ℕ)
    (ctx : ResearchContext) : List SubAgentResult :=
  let maxConcurrent := jsOrNat maxAgents 3
  (ctx.pending_tasks.take maxConcurrent).map (taskOutcome env)

/-- The post-round context update of executeResearchPlan: push the round's
results onto completed_tasks and drop every pending task whose id appears
among the round's results. -/
def roundUpdate (ctx : ResearchContext) (iterResults : List SubAgentResult) :
    ResearchContext :=
  { ctx with
    completed_tasks := ctx.completed_tasks ++ iterResults
    pending_tasks := ctx.pending_tasks.filter (fun task =>
      ¬ iterResults.any (fun r => r.task_id = task.task_id)) }

/-- Embedding of createFollowupTasks on the follow-up think outcome: an
error or a falsy needs_followup yields nothing; otherwise each raw
follow-up task receives a fresh id. -/
def createFollowupTasks (tv : ThinkV) (c : ℕ) : List FollowUpTask × ℕ :=
  if jsTruthyStr tv.error || ¬ jsTruthyBool tv.needs_followup then ([], c)
  else
    let raw := tv.followup_tasks.getD []
    (raw.mapIdx (fun i t =>
      { task_id := uuid (c + i), reason := t.reason
        additional_queries := t.additional_queries.getD []
        focus_areas := t.focus_areas.getD [] }),
     c + raw.length)

/-- The pending tasks appended for a round's follow-up decision: one task
per additional query of each follow-up, each with a fresh id, the joined
focus areas, and a search budget of 3. -/
def followupPending : List FollowUpTask → ℕ → List SubAgentTask × ℕ
  | [], c => ([], c)
  | f :: rest, c =>
      let newts := f.additional_queries.mapIdx (fun i qy =>
        { task_id := uuid (c + i), objective := qy
          search_focus := String.intercalate ", " f.focus_areas
          expected_output_format := "Additional findings and clarifications"
          max_searches := some 3, status := TaskStatus.pending })
      let out := followupPending rest (c + f.additional_queries.length)
      (newts ++ out.1, out.2)

/-- The follow-up tasks appended at the end of one round, when the
sufficiency heuristic asks for more research. -/
def followupAdds (env : LeadEnv) (iterCount : ℕ)
    (resultsSoFar : List SubAgentResult) (c : ℕ) : List SubAgentTask × ℕ :=
  if needsMoreResearch resultsSoFar then
    followupPending (createFollowupTasks (env.followupThink iterCount) c).1
      (createFollowupTasks (env.followupThink iterCount) c).2
  else ([], c)

/-- Observable per-session state threaded beside the context: the uuid
counter, the ordered status writes, the persisted context snapshots, the
number of executed rounds, every task ever created, and the collected
results. -/
structure LeadState where
  ctr : ℕ
  statusLog : List String
  snapshots : List ResearchContext
  rounds : ℕ
  allTasks : List SubAgentTask
  taskResults : List SubAgentResult
  finalCompleted : List SubAgentResult
deriving Repr

/-- Embedding of the while loop of executeResearchPlan. The loop guard is
the source's own condition (iteration budget left and pending tasks remain);
the structural fuel argument only totalises the recursion and is chosen at
the call site to dominate the guard, so the iteration bound proved of this
function comes from the guard alone. -/
def execLoop (env : LeadEnv) (maxAgents : Option ℕ) (maxIterations : ℕ) :
    ℕ → ResearchContext → List SubAgentResult → LeadState →
      List SubAgentResult × ResearchContext × LeadState
  | 0, ctx, results, st => (results, ctx, st)
  | fuel + 1, ctx, results, st =>
      if ctx.iteration_count < maxIterations ∧ ctx.pending_tasks ≠ [] then
        let ctx1 := { ctx with iteration_count := ctx.iteration_count + 1 }
        let st1 := { st with
          statusLog := st.statusLog ++
            ["executing_iteration_" ++ natToStr ctx1.iteration_count]
          rounds := st.rounds + 1 }
        let iter := executePendingTasks env maxAgents ctx1
        let results2 := results ++ iter
        let ctx2 := roundUpdate ctx1 iter
        let st2 := { st1 with snapshots := st1.snapshots ++ [ctx2] }
        let adds := followupAdds env ctx2.iteration_count results2 st2.ctr
        let ctx3 := { ctx2 with pending_tasks := ctx2.pending_tasks ++ adds.1 }
        let st3 := { st2 with ctr := adds.2, allTasks := st2.allTasks ++ adds.1 }
        execLoop env maxAgents maxIterations fuel ctx3 results2 st3
      else (results, ctx, st)

/-- The failure artifact of the top-level catch: status failed and a
human-readable failure report, never a thrown exception. -/
def failResult (researchId : String) (q : ResearchQuery) (e : String)
    (st : LeadState) : ResearchResult × LeadState :=
  ({ research_id := researchId, query := q.query
     report := "Research failed: " ++ e, citations := [], sources_used := []
     total_tokens_used := 0, execution_time := 0 },
   { st with statusLog := st.statusLog ++ ["failed"] })

/-- Embedding of LeadResearchAgent conductResearch: plan, iterate,
synthesize, cite, assemble; every failure escaping those steps lands in the
single catch producing a failed ResearchResult. Wall-clock durations are
modelled as zero. -/
def conductResearchFull (env : LeadEnv) (maxAgents : Option ℕ)
    (q : ResearchQuery) : ResearchResult × LeadState :=
  let researchId := uuid 0
  let st0 : LeadState :=
    { ctr := 1, statusLog := ["planning"], snapshots := [], rounds := 0
      allTasks := [], taskResults := [], finalCompleted := [] }
  match createResearchPlan q env.planThink env.stringifyPlanThink
      env.parseJson st0.ctr with
  | (Except.error e, c1) => failResult researchId q e { st0 with ctr := c1 }
  | (Except.ok plan, c1) =>
      let ctx0 : ResearchContext :=
        { research_id := researchId, query := q.query, plan := plan
          completed_tasks := [], pending_tasks := plan.subtasks
          iteration_count := 0, total_tokens_used := 0, start_time := 0 }
      let st1 := { st0 with
        ctr := c1
        snapshots := [ctx0]
        allTasks := plan.subtasks
        statusLog := st0.statusLog ++ ["executing"] }
      let maxIterations := jsOrNat q.max_iterations 5
      let out := execLoop env maxAgents maxIterations (maxIterations + 1)
        ctx0 [] st1
      let results := out.1
      let st2 := { out.2.2 with
        taskResults := results
        finalCompleted := out.2.1.completed_tasks
        statusLog := out.2.2.statusLog ++ ["synthesizing"] }
      match env.synthesis with
      | Except.error e => failResult researchId q e st2
      | Except.ok report =>
          let st3 := { st2 with statusLog := st2.statusLog ++ ["citing"] }
          match env.citeStep report (results.flatMap (fun r => r.sources)) with
          | Except.error e => failResult researchId q e st3
          | Except.ok cited =>
              ({ research_id := researchId, query := q.query
                 report := cited.1, citations := cited.2
                 sources_used := results.flatMap (fun r => r.sources)
                 total_tokens_used :=
                   results.foldl (fun s r => s + r.token_count) 0
                 execution_time := 0 },
               { st3 with statusLog := st3.statusLog ++ ["completed"] })

/-! ## Concrete inputs for the C2 and C10 witnesses -/

def w2task1 : SubAgentTask :=
  { task_id := "uuid-10", objective := "o1", search_focus := "f1"
    expected_output_format := "fmt", max_searches := some 5
    status := TaskStatus.pending }

def w2task2 : SubAgentTask :=
  { task_id := "uuid-11", objective := "o2", search_focus := "f2"
    expected_output_format := "fmt", max_searches := some 5
    status := TaskStatus.pending }

def w2ctx : ResearchContext :=
  { research_id := "uuid-0", query := "q"
    plan := { plan_id := "uuid-2", strategy := "s"
              subtasks := [w2task1, w2task2]
              estimated_complexity := "moderate" }
    completed_tasks := [], pending_tasks := [w2task1, w2task2]
    iteration_count := 1, total_tokens_used := 0, start_time := 0 }

/-- Environment whose first subagent crashes and whose second succeeds. -/
def w2env : LeadEnv :=
  { planThink := {}
    stringifyPlanThink := ""
    parseJson := fun _ => none
    runTaskCore := fun t =>
      if t.task_id = "uuid-10" then Except.error "search agent crashed"
      else Except.ok ([], [], "ok summary", 7)
    followupThink := fun _ => {}
    synthesis := Except.ok "report"
    citeStep := fun r _ => Except.ok (r, []) }

/-- One source URL returned by both subagents of the C10 witness. -/
def w10src : SearchResult :=
  { url := "https://dup.example/page", title := "Dup", snippet := "s"
    content := none, relevance_score := 1/2 }

/-- Environment where planning yields two subtasks, both subagents return
the same source URL, and no follow-up is requested. -/
def w10env : LeadEnv :=
  { planThink :=
      { subtasks := some
          [{ objective := "angle one", search_focus := "a"
             expected_output_format := "fmt", max_searches := some 5 },
           { objective := "angle two", search_focus := "b"
             expected_output_format := "fmt", max_searches := some 5 }] }
    stringifyPlanThink := ""
    parseJson := fun _ => none
    runTaskCore := fun _ => Except.ok ([], [w10src], "sum", 3)
    followupThink := fun _ => { needs_followup := some false }
    synthesis := Except.ok "Synth report"
    citeStep := fun r _ => Except.ok (r, []) }

def w10q : ResearchQuery :=
  { query := "dup query", max_subagents := some 2, max_iterations := some 1 }

/-- Every task id in the list comes from the uuid supply below the
counter. -/
def TaskIdsBelow (ts : List SubAgentTask) (c : ℕ) : Prop :=
  ∀ t ∈ ts, ∃ n, n < c ∧ t.task_id = uuid n

/-- Every result id in the list comes from the uuid supply below the
counter. -/
def ResultIdsBelow (rs : List SubAgentResult) (c : ℕ) : Prop :=
  ∀ r ∈ rs, ∃ n, n < c ∧ r.task_id = uuid n

/-- Invariant of the research context against the uuid counter: pending and
completed ids are duplicate free, drawn from the supply below the counter,
and no id sits in both collections. -/
def CtxInv (ctx : ResearchContext) (c : ℕ) : Prop :=
  (ctx.pending_tasks.map (fun t => t.task_id)).Nodup ∧
  (ctx.completed_tasks.map (fun r => r.task_id)).Nodup ∧
  TaskIdsBelow ctx.pending_tasks c ∧
  ResultIdsBelow ctx.completed_tasks c ∧
  ∀ id ∈ ctx.pending_tasks.map (fun t => t.task_id),
    id ∉ ctx.completed_tasks.map (fun r => r.task_id)

/-- The observation-point property of one persisted context snapshot:
pending ids are duplicate free and disjoint from the completed ids. -/
def SnapOk (ctx : ResearchContext) : Prop :=
  (ctx.pending_tasks.map (fun t => t.task_id)).Nodup ∧
  ∀ id ∈ ctx.pending_tasks.map (fun t => t.task_id),
    id ∉ ctx.completed_tasks.map (fun r => r.task_id)

/-! ## Search execution traces (claim C3)

The Search Subagent's search step is embedded as a trace semantics: the
callStart and callEnd events mark the issuing and settling of one external
search-tool invocation, and the delayed event marks the inter-call sleep.
The repository holds two variants of performSearches: the sequential one of
the research pipeline's SearchSubAgent (a for loop awaiting each call, with
a 500 millisecond delay between calls) and a legacy variant in the agents
module driving all searches through one parallel fan-out. -/

/-- Result record of the tool registry's executeTool. -/
structure ToolResult where
  success : Bool
  result : Option String
  error : Option String
deriving DecidableEq, Repr

/-- Events observable at the search-call boundary. -/
inductive SearchEv where
  | callStart (q : String)
  | callEnd (q : String)
  | delayed
deriving DecidableEq, Repr

/-- Per-query results budget as computed by the source: the ceiling of
maxResults over the query count. -/
def resultsPerQuery (maxResults nQueries : ℕ) : ℕ :=
  if nQueries = 0 then 0 else (maxResults + nQueries - 1) / nQueries

/-- URL-deduplicating, capacity-capped accumulation of freshly parsed
results into the running result list. -/
def insertResults (maxResults : ℕ) (acc : List SearchResult)
    (results : List SearchResult) : List SearchResult :=
  results.foldl (fun a r =>
    if ¬ a.any (fun ex => ex.url = r.url) ∧ a.length < maxResults then a ++ [r]
    else a) acc

/-- Embedding of the sequential performSearches of the research pipeline's
SearchSubAgent: one tool invocation per query in order; a throwing
invocation is caught and skipped (continue); a returned invocation has its
formatted output parsed and merged, followed by the inter-call delay except
after the last query. Returns the event trace and the accumulated
results. -/
def performSearchesSeqAux (tool : String → ℕ → Except String ToolResult)
    (parseResp : String → String → List SearchResult)
    (rpq maxResults : ℕ) :
    List String → List SearchResult → List SearchEv × List SearchResult
  | [], acc => ([], acc)
  | q :: rest, acc =>
      match tool q rpq with
      | Except.error _ =>
          let out := performSearchesSeqAux tool parseResp rpq maxResults rest acc
          (SearchEv.callStart q :: SearchEv.callEnd q :: out.1, out.2)
      | Except.ok tres =>
          let results :=
            if tres.success && jsTruthyStr tres.result then
              parseResp (tres.result.getD "") q
            else []
          let acc2 := insertResults maxResults acc results
          let delayEvs : List SearchEv :=
            if rest.isEmpty then [] else [SearchEv.delayed]
          let out := performSearchesSeqAux tool parseResp rpq maxResults rest acc2
          (SearchEv.callStart q :: SearchEv.callEnd q :: (delayEvs ++ out.1), out.2)

/-- Sequential performSearches: run the per-query loop on an empty
accumulator and cap the final result list. -/
def performSearchesSeq (tool : String → ℕ → Except String ToolResult)
    (parseResp : String → String → List SearchResult)
    (queries : List String) (maxResults : ℕ) :
    List SearchEv × List SearchResult :=
  let out := performSearchesSeqAux tool parseResp
    (resultsPerQuery maxResults queries.length) maxResults queries []
  (out.1, out.2.take maxResults)

/-- Embedding of the legacy parallel performSearches of the agents module:
the per-query async closures are all started by the map before any of them
settles (the fan-out is joined by one Promise.all), so every callStart
precedes every callEnd, and no inter-call delay exists. The settled result
arrays are then merged in dispatch order with URL deduplication and the
final list is capped. -/
def performSearchesPar (runAgent : String → Except String String)
    (parseResp : String → String → List SearchResult)
    (queries : List String) (maxResults : ℕ) :
    List SearchEv × List SearchResult :=
  let arrays := queries.map (fun q =>
    match runAgent q with
    | Except.ok resp => parseResp resp q
    | Except.error _ => [])
  let merged := arrays.foldl (fun acc results =>
    results.foldl (fun a r =>
      if ¬ a.any (fun ex => ex.url = r.url) then a ++ [r] else a) acc) []
  (queries.map SearchEv.callStart ++ queries.map SearchEv.callEnd,
    merged.take maxResults)

/-- Running count of in-flight searches after a list of events. -/
def inFlightAux : ℕ → List SearchEv → ℕ
  | n, [] => n
  | n, SearchEv.callStart _ :: t => inFlightAux (n + 1) t
  | n, SearchEv.callEnd _ :: t => inFlightAux (n - 1) t
  | n, SearchEv.delayed :: t => inFlightAux n t

def inFlight (tr : List SearchEv) : ℕ := inFlightAux 0 tr

/-- A trace never has two searches in flight at once when every prefix ends
with at most one open call. -/
def NeverTwoInFlight (tr : List SearchEv) : Prop :=
  ∀ p : List SearchEv, p <+: tr → inFlight p ≤ 1

/-- The queries named by the callStart events of a trace, in order. -/
def startedQueries (tr : List SearchEv) : List String :=
  tr.filterMap (fun e =>
    match e with
    | SearchEv.callStart q => some q
    | _ => none)

/-- Spec-side expected sequential trace, following the claim's words: one
start and end block per query in order, with a delay between consecutive
searches (the delay is skipped after a throwing call, which the source's
catch-and-continue also skips, and after the final query). -/
def specSeqTrace (tool : String → ℕ → Except String ToolResult) (rpq : ℕ) :
    List String → List SearchEv
  | [] => []
  | q :: rest =>
      SearchEv.callStart q :: SearchEv.callEnd q ::
        ((match tool q rpq with
          | Except.error _ => []
          | Except.ok _ => if rest.isEmpty then ([] : List SearchEv)
                           else [SearchEv.delayed]) ++ specSeqTrace tool rpq rest)

/-- Concrete all-ok search agent for the C3 counterexample. -/
def c3RunAgent : String → Except String String := fun _ => Except.ok "results"

/-- Concrete parser returning nothing, for the C3 counterexample. -/
def c3Parse : String → String → List SearchResult := fun _ _ => []

/-! ## Citation pipeline (claim C6)

Embedding of CitationAgent _matchClaimsToSources, _insertCitations and
_generateCitationList. Reports are manipulated as character lists; the
JavaScript Array sort (stable in the engine) is modelled by the stable
insertion sort. -/

/-- One identified claim of the citation stage. -/
structure ReportClaim where
  claim : String
  position : ℤ
  context : String
deriving DecidableEq, Repr

/-- One matched claim with its selected source and assigned citation
number. -/
structure CitationMatch where
  claim : String
  position : ℤ
  source : SearchResult
  citationNumber : ℕ
deriving DecidableEq, Repr

/-- The qualified sources of _matchClaimsToSources: relevance at least 0.6,
sorted descending by relevance (stable sort with the comparator
b.relevance_score - a.relevance_score). -/
def qualifiedSources (sources : List SearchResult) : List SearchResult :=
  List.insertionSort
    (fun a b => b.relevance_score ≤ a.relevance_score)
    (sources.filter (fun s => decide ((6 : ℚ)/10 ≤ s.relevance_score)))

/-- The matching loop of _matchClaimsToSources: one think call per claim
(the per-claim oracle, erroring calls are caught and skipped), guarded by
0 ≤ best_match_index < qualified length and confidence ≥ 0.6; a pushed
match takes the post-incremented citation counter. -/
def matchLoop (qs : List SearchResult)
    (oracle : ℕ → Except String ThinkV) :
    List ReportClaim → ℕ → ℕ → List CitationMatch
  | [], _, _ => []
  | c :: rest, i, ctr =>
      match oracle i with
      | Except.error _ => matchLoop qs oracle rest (i + 1) ctr
      | Except.ok tv =>
          match tv.best_match_index, tv.confidence with
          | some bmi, some conf =>
              if 0 ≤ bmi ∧ bmi.toNat < qs.length ∧ (6 : ℚ)/10 ≤ conf then
                match qs[bmi.toNat]? with
                | some src =>
                    { claim := c.claim, position := c.position, source := src
                      citationNumber := ctr }
                      :: matchLoop qs oracle rest (i + 1) (ctr + 1)
                | none => matchLoop qs oracle rest (i + 1) ctr
              else matchLoop qs oracle rest (i + 1) ctr
          | _, _ => matchLoop qs oracle rest (i + 1) ctr

/-- CitationAgent _matchClaimsToSources. -/
def matchClaimsToSources (claims : List ReportClaim)
    (oracle : ℕ → Except String ThinkV) (sources : List SearchResult) :
    List CitationMatch :=
  matchLoop (qualifiedSources sources) oracle claims 0 1

/-- The citation record built from one match in _generateCitationList. -/
def toCitation (m : CitationMatch) : Citation :=
  { id := natToStr m.citationNumber, url := m.source.url
    title := m.source.title, snippet := m.source.snippet
    relevance := m.source.relevance_score }

/-- Numeric value of a decimal digit character. -/
def digitVal (c : Char) : Option ℕ :=
  if '0' ≤ c ∧ c ≤ '9' then some (c.toNat - 48) else none

/-- Leading-digit accumulator of the platform parseInt. -/
def parseDigitsAux : List Char → ℕ → ℕ
  | [], acc => acc
  | c :: t, acc =>
      match digitVal c with
      | some d => parseDigitsAux t (acc * 10 + d)
      | none => acc

/-- Model of parseInt on the citation ids (which are decimal strings): the
value of the leading decimal digits. -/
def parseIntNat (s : String) : ℕ := parseDigitsAux s.data 0

/-- CitationAgent _generateCitationList: one citation per first-seen source
URL keeping that match's citation number, then sorted ascending by the
numeric id (stable sort with the comparator parseInt(a.id) -
parseInt(b.id)). -/
def generateCitationList (ms : List CitationMatch) : List Citation :=
  List.insertionSort (fun a b => parseIntNat a.id ≤ parseIntNat b.id)
    (ms.foldl
      (fun acc m =>
        if acc.2.contains m.source.url then acc
        else (acc.1 ++ [toCitation m], acc.2 ++ [m.source.url]))
      (([] : List Citation), ([] : List String))).1

/-- The inline citation marker spliced after a claim. -/
def markerChars (n : ℕ) : List Char := ' ' :: '[' :: (natDigits n ++ [']'])

/-- One step of _insertCitations: first case-insensitive occurrence of the
claim in the current report; when present, splice the marker right after
the claim's end, otherwise leave the report unchanged. -/
def insertOne (report : List Char) (m : CitationMatch) : List Char :=
  match subIndex? (m.claim.data.map Char.toLower)
      (report.map Char.toLower) with
  | none => report
  | some claimStart =>
      let claimEnd := claimStart + m.claim.data.length
      report.take claimEnd ++ markerChars m.citationNumber
        ++ report.drop claimEnd

/-- The in-place sort of _insertCitations: stable, descending by the match
position (comparator b.position - a.position). -/
def sortMatchesDesc (ms : List CitationMatch) : List CitationMatch :=
  List.insertionSort (fun a b => b.position ≤ a.position) ms

/-- The matched-path core of addCitations: match claims, insert inline
markers over the position-descending sort, and build the citation list.
The JavaScript sort mutates the match array in place, so the citation list
is generated from the sorted matches. -/
def addCitationsCore (report : String) (claims : List ReportClaim)
    (oracle : ℕ → Except String ThinkV) (sources : List SearchResult) :
    String × List Citation :=
  let ms := matchClaimsToSources claims oracle sources
  let sorted := sortMatchesDesc ms
  (String.mk (sorted.foldl insertOne report.data),
   generateCitationList sorted)

/-- A report decomposed around its matched claims: the gap before the first
claim occurrence, then one (match, claim segment, following gap) item per
match in claim order. -/
def plainOf (g0 : List Char) :
    List (CitationMatch × List Char × List Char) → List Char
  | [] => g0
  | (_, C, g) :: t => g0 ++ C ++ plainOf g t

/-- The same decomposition with each match's marker spliced right after its
claim segment. -/
def citedOf (g0 : List Char) :
    List (CitationMatch × List Char × List Char) → List Char
  | [] => g0
  | (m, C, g) :: t => g0 ++ C ++ markerChars m.citationNumber ++ citedOf g t

/-- Well-formedness of a decomposition: each segment is the case-folded
image of its match's claim, and the first case-insensitive occurrence of
the claim in the document prefix ending at the segment is the segment
itself. -/
def GoodDecomp (g0 : List Char) :
    List (CitationMatch × List Char × List Char) → Prop
  | [] => True
  | (m, C, g) :: t =>
      (C.map Char.toLower = m.claim.data.map Char.toLower) ∧
      subIndex? (m.claim.data.map Char.toLower)
          ((g0 ++ C).map Char.toLower) = some g0.length ∧
      GoodDecomp (g0 ++ C ++ g) t

/-- Occurrences of a pattern in a character list, one per starting
position. -/
def countSub (pat : List Char) : List Char → ℕ
  | [] => 0
  | c :: t =>
      (if pat.isPrefixOf (c :: t) then 1 else 0) + countSub pat t

/-! Concrete inputs for the C6 counterexample and witness. -/

/-- The single qualified source of the C6 counterexample. -/
def c6source : SearchResult :=
  { url := "https://s.example/a", title := "S", snippet := "sn"
    content := none, relevance_score := 9/10 }

def c6sources : List SearchResult := [c6source]

/-- Two claims whose text does not occur in the short report. -/
def c6claims : List ReportClaim :=
  [{ claim := String.mk ['a', 'l', 'p', 'h', 'a'], position := 0
     context := "c" },
   { claim := String.mk ['b', 'e', 't', 'a'], position := 10
     context := "c" }]

/-- Matching oracle of the counterexample: always the first qualified
source with full confidence. -/
def c6oracle : ℕ → Except String ThinkV :=
  fun _ => Except.ok { best_match_index := some 0, confidence := some 1 }

def c6report : String := String.mk ['x', 'y', 'z']

/-- First source of the C6 witness. -/
def w6srcA : SearchResult :=
  { url := "https://a.example/1", title := "A", snippet := "sa"
    content := none, relevance_score := 9/10 }

/-- Second source of the C6 witness, with a distinct URL. -/
def w6srcB : SearchResult :=
  { url := "https://b.example/2", title := "B", snippet := "sb"
    content := none, relevance_score := 9/10 }

def w6sources : List SearchResult := [w6srcA, w6srcB]

/-- Two claims occurring verbatim in the witness report, in order. -/
def w6claims : List ReportClaim :=
  [{ claim := String.mk ['a', 'l', 'p', 'h', 'a'], position := 0
     context := "c" },
   { claim := String.mk ['b', 'e', 't', 'a'], position := 1
     context := "c" }]

/-- Matching oracle of the witness: the first claim matches the first
qualified source, the second claim the second, both confidently. -/
def w6oracle : ℕ → Except String ThinkV :=
  fun i => Except.ok
    { best_match_index := some (if i = 0 then 0 else 1)
      confidence := some 1 }

def w6report : String :=
  String.mk ['s', 'e', 'e', ' ', 'a', 'l', 'p', 'h', 'a', ' ', 'a', 'n',
    'd', ' ', 'b', 'e', 't', 'a', ' ', 'e', 'n', 'd']

def w6m1 : CitationMatch :=
  { claim := String.mk ['a', 'l', 'p', 'h', 'a'], position := 0
    source := w6srcA, citationNumber := 1 }

def w6m2 : CitationMatch :=
  { claim := String.mk ['b', 'e', 't', 'a'], position := 1
    source := w6srcB, citationNumber := 2 }

/-- The witness report decomposed around its two claim occurrences. -/
def w6its : List (CitationMatch × List Char × List Char) :=
  [(w6m1, ['a', 'l', 'p', 'h', 'a'], [' ', 'a', 'n', 'd', ' ']),
   (w6m2, ['b', 'e', 't', 'a'], [' ', 'e', 'n', 'd'])]

def w6g0 : List Char := ['s', 'e', 'e', ' ']

end Heavy

namespace Heavy

/-! ## Supporting lemmas -/

theorem natDigitsAux_congr : ∀ (n f1 f2 : ℕ), n < f1 → n < f2 →
    natDigitsAux f1 n = natDigitsAux f2 n := by
  intro n
  induction n using Nat.strong_induction_on with
  | _ n ih =>
    intro f1 f2 h1 h2
    rcases f1 with _ | f1
    · omega
    rcases f2 with _ | f2
    · omega
    by_cases hn : n < 10
    · simp [natDigitsAux, hn]
    · simp only [natDigitsAux, hn, if_false]
      have hd : n / 10 < n := Nat.div_lt_self (by omega) (by omega)
      rw [ih (n / 10) hd f1 f2 (by omega) (by omega)]

theorem digitChar_inj {a b : ℕ} (ha : a < 10) (hb : b < 10)
    (h : digitChar a = digitChar b) : a = b := by
  interval_cases a <;> interval_cases b <;> simp_all [digitChar]

theorem natDigits_len_one {n : ℕ} (h : n < 10) : natDigits n = [digitChar n] := by
  rw [natDigits]
  simp [natDigitsAux, h]

theorem natDigits_len_big {n : ℕ} (h : ¬ n < 10) :
    natDigits n = natDigits (n / 10) ++ [digitChar (n % 10)] := by
  rw [natDigits]
  simp only [natDigitsAux, h, if_false]
  rw [natDigitsAux_congr (n / 10) n (n / 10 + 1)
    (Nat.div_lt_self (by omega) (by omega)) (by omega)]
  rfl

theorem natDigits_ne_nil (n : ℕ) : natDigits n ≠ [] := by
  by_cases h : n < 10
  · rw [natDigits_len_one h]
    simp
  · rw [natDigits_len_big h]
    simp

theorem natDigits_inj : ∀ {a b : ℕ}, natDigits a = natDigits b → a = b := by
  intro a
  induction a using Nat.strong_induction_on with
  | _ a ih =>
    intro b h
    by_cases ha : a < 10 <;> by_cases hb : b < 10
    · rw [natDigits_len_one ha, natDigits_len_one hb] at h
      exact digitChar_inj ha hb (by simpa using h)
    · rw [natDigits_len_one ha, natDigits_len_big hb] at h
      have := natDigits_ne_nil (b / 10)
      rcases List.exists_cons_of_ne_nil this with ⟨c, t, hct⟩
      rw [hct] at h
      simp at h
    · rw [natDigits_len_big ha, natDigits_len_one hb] at h
      have := natDigits_ne_nil (a / 10)
      rcases List.exists_cons_of_ne_nil this with ⟨c, t, hct⟩
      rw [hct] at h
      simp at h
    · rw [natDigits_len_big ha, natDigits_len_big hb] at h
      have h2 := List.append_inj h (by
        have e1 := congrArg List.length h
        simp at e1
        omega)
      obtain ⟨hq, hr⟩ := h2
      have hdiv : a / 10 = b / 10 :=
        ih (a / 10) (Nat.div_lt_self (by omega) (by omega)) hq
      have hmod : a % 10 = b % 10 :=
        digitChar_inj (Nat.mod_lt _ (by omega)) (Nat.mod_lt _ (by omega))
          (by simpa using hr)
      omega

theorem natToStr_inj {a b : ℕ} (h : natToStr a = natToStr b) : a = b := by
  apply natDigits_inj
  have := congrArg String.data h
  simpa [natToStr] using this

theorem evalStep_fold_ge (results : List SearchResult) :
    ∀ (es : List EvalEntry) (acc : List SearchResult),
      (∀ r ∈ acc, 6/10 ≤ r.relevance_score) →
      ∀ r ∈ es.foldl (evalStep results) acc, 6/10 ≤ r.relevance_score := by
  intro es
  induction es with
  | nil => intro acc hacc; simpa using hacc
  | cons e es ih =>
    intro acc hacc
    rw [List.foldl_cons]
    apply ih
    intro r hr
    dsimp [evalStep] at hr
    split at hr
    · cases hx : results[e.index.toNat]? with
      | none => rw [hx] at hr; exact hacc r hr
      | some r0 =>
        rw [hx] at hr
        dsimp at hr
        split at hr
        · rcases List.mem_append.mp hr with hmem | hmem
          · exact hacc r hmem
          · rcases List.mem_singleton.mp hmem with rfl
            assumption
        · exact hacc r hr
    · exact hacc r hr

theorem uuid_inj {a b : ℕ} (h : uuid a = uuid b) : a = b := by
  apply natToStr_inj
  have hd := congrArg String.data h
  simp only [uuid, String.data_append] at hd
  apply String.ext
  exact List.append_cancel_left hd

theorem map_mapIdx {α β γ : Type} : ∀ (l : List α) (f : ℕ → α → β) (g : β → γ),
    (l.mapIdx f).map g = l.mapIdx (fun i a => g (f i a)) := by
  intro l
  induction l with
  | nil => intro f g; rfl
  | cons x t ih =>
    intro f g
    rw [List.mapIdx_cons, List.mapIdx_cons, List.map_cons, ih]

theorem mapIdx_eq_range_map {α β : Type} : ∀ (l : List α) (h : ℕ → β),
    l.mapIdx (fun i _ => h i) = (List.range l.length).map h := by
  intro l
  induction l with
  | nil => intro h; rfl
  | cons x t ih =>
    intro h
    rw [List.mapIdx_cons, List.length_cons, List.range_succ_eq_map,
      List.map_cons, List.map_map, ih]
    rfl

theorem range_uuid_nodup (c len : ℕ) :
    (((List.range len).map (fun i => uuid (c + i))).Nodup) := by
  apply List.Nodup.map
  · intro a b hab
    have := uuid_inj hab
    omega
  · exact List.nodup_range len

theorem taskOutcome_id (env : LeadEnv) (t : SubAgentTask) :
    (taskOutcome env t).task_id = t.task_id := by
  unfold taskOutcome runTask
  cases env.runTaskCore t with
  | ok v =>
    rcases v with ⟨f, s, summary, tk⟩
    rfl
  | error e => rfl

theorem executePendingTasks_ids (env : LeadEnv) (maxAgents : Option ℕ)
    (ctx : ResearchContext) :
    (executePendingTasks env maxAgents ctx).map (fun r => r.task_id)
      = (ctx.pending_tasks.take (jsOrNat maxAgents 3)).map
          (fun t => t.task_id) := by
  unfold executePendingTasks
  rw [List.map_map]
  exact List.map_congr_left (fun t _ => taskOutcome_id env t)

theorem followupPending_ids : ∀ (fts : List FollowUpTask) (c : ℕ),
    c ≤ (followupPending fts c).2 ∧
    (((followupPending fts c).1.map (fun t => t.task_id)).Nodup) ∧
    (∀ t ∈ (followupPending fts c).1,
      ∃ n, c ≤ n ∧ n < (followupPending fts c).2 ∧ t.task_id = uuid n) := by
  intro fts
  induction fts with
  | nil =>
    intro c
    refine ⟨le_refl _, List.nodup_nil, ?_⟩
    intro t ht
    simp [followupPending] at ht
  | cons f rest ih =>
    intro c
    obtain ⟨h1, h2, h3⟩ := ih (c + f.additional_queries.length)
    have hids : ((f.additional_queries.mapIdx (fun i qy =>
        ({ task_id := uuid (c + i), objective := qy
           search_focus := String.intercalate ", " f.focus_areas
           expected_output_format := "Additional findings and clarifications"
           max_searches := some 3
           status := TaskStatus.pending } : SubAgentTask))).map
          (fun t => t.task_id))
        = (List.range f.additional_queries.length).map (fun i => uuid (c + i)) := by
      rw [map_mapIdx]
      exact mapIdx_eq_range_map f.additional_queries (fun i => uuid (c + i))
    rw [followupPending]
    refine ⟨by omega, ?_, ?_⟩
    · rw [List.map_append, hids]
      apply List.Nodup.append (range_uuid_nodup c _) h2
      intro id hid1 hid2
      rcases List.mem_map.mp hid1 with ⟨i, hi, rfl⟩
      rcases List.mem_map.mp hid2 with ⟨t, ht, hteq⟩
      rcases h3 t ht with ⟨n, hn1, hn2, hn3⟩
      rw [hn3] at hteq
      have := uuid_inj hteq
      have hilen := List.mem_range.mp hi
      omega
    · intro t ht
      rcases List.mem_append.mp ht with hmem | hmem
      · have hidmem := List.mem_map_of_mem (fun t => t.task_id) hmem
        rw [hids] at hidmem
        rcases List.mem_map.mp hidmem with ⟨i, hi, hieq⟩
        have hilen := List.mem_range.mp hi
        exact ⟨c + i, by omega, by omega, hieq.symm⟩
      · rcases h3 t hmem with ⟨n, hn1, hn2, hn3⟩
        exact ⟨n, by omega, by omega, hn3⟩

theorem createFollowupTasks_le (tv : ThinkV) (c : ℕ) :
    c ≤ (createFollowupTasks tv c).2 := by
  unfold createFollowupTasks
  split
  · exact le_refl c
  · simp

theorem planSubtasks_ids (raw : List RawSubtask) (ctr : ℕ) :
    (((raw.mapIdx (fun i t =>
        ({ task_id := uuid (ctr + i), objective := t.objective
           search_focus := t.search_focus
           expected_output_format := t.expected_output_format
           max_searches := some (jsOrNat t.max_searches 5)
           status := TaskStatus.pending } : SubAgentTask))).map
        (fun t => t.task_id)).Nodup) ∧
    ∀ t ∈ raw.mapIdx (fun i t =>
        ({ task_id := uuid (ctr + i), objective := t.objective
           search_focus := t.search_focus
           expected_output_format := t.expected_output_format
           max_searches := some (jsOrNat t.max_searches 5)
           status := TaskStatus.pending } : SubAgentTask)),
      ∃ n, ctr ≤ n ∧ n < ctr + raw.length ∧ t.task_id = uuid n := by
  have hids : ((raw.mapIdx (fun i t =>
      ({ task_id := uuid (ctr + i), objective := t.objective
         search_focus := t.search_focus
         expected_output_format := t.expected_output_format
         max_searches := some (jsOrNat t.max_searches 5)
         status := TaskStatus.pending } : SubAgentTask))).map
        (fun t => t.task_id))
      = (List.range raw.length).map (fun i => uuid (ctr + i)) := by
    rw [map_mapIdx]
    exact mapIdx_eq_range_map raw (fun i => uuid (ctr + i))
  constructor
  · rw [hids]
    exact range_uuid_nodup ctr raw.length
  · intro t ht
    have hm := List.mem_map_of_mem (fun t => t.task_id) ht
    rw [hids] at hm
    rcases List.mem_map.mp hm with ⟨i, hi, hieq⟩
    have := List.mem_range.mp hi
    exact ⟨ctr + i, by omega, by omega, hieq.symm⟩

theorem createResearchPlan_ok_ids (q : ResearchQuery) (tv : ThinkV)
    (s : String) (parse : String → Option ThinkV) (ctr : ℕ)
    (plan : ResearchPlan) (c' : ℕ)
    (h : createResearchPlan q tv s parse ctr = (Except.ok plan, c')) :
    ctr ≤ c' ∧ ((plan.subtasks.map (fun t => t.task_id)).Nodup) ∧
    ∀ t ∈ plan.subtasks, ∃ n, n < c' ∧ t.task_id = uuid n := by
  unfold createResearchPlan at h
  split at h
  · simp at h
  · rw [Prod.mk.injEq] at h
    obtain ⟨h1, h2⟩ := h
    rw [Except.ok.injEq] at h1
    subst h2
    subst h1
    refine ⟨by omega, ?_, ?_⟩
    · exact (planSubtasks_ids _ ctr).1
    · intro t ht
      rcases (planSubtasks_ids _ ctr).2 t ht with ⟨n, hn1, hn2, hn3⟩
      exact ⟨n, by omega, hn3⟩

theorem CtxInv.mono {ctx : ResearchContext} {c c' : ℕ} (h : CtxInv ctx c)
    (hle : c ≤ c') : CtxInv ctx c' := by
  obtain ⟨h1, h2, h3, h4, h5⟩ := h
  refine ⟨h1, h2, ?_, ?_, h5⟩
  · intro t ht
    rcases h3 t ht with ⟨n, hn, he⟩
    exact ⟨n, by omega, he⟩
  · intro r hr
    rcases h4 r hr with ⟨n, hn, he⟩
    exact ⟨n, by omega, he⟩

theorem roundUpdate_inv (env : LeadEnv) (maxAgents : Option ℕ)
    (ctx : ResearchContext) (c : ℕ) (hinv : CtxInv ctx c) :
    CtxInv (roundUpdate ctx (executePendingTasks env maxAgents ctx)) c := by
  obtain ⟨hpnd, hcnd, hpb, hcb, hdisj⟩ := hinv
  set k := jsOrNat maxAgents 3 with hk
  set iter := executePendingTasks env maxAgents ctx with hiter
  have hiterids : iter.map (fun r => r.task_id)
      = (ctx.pending_tasks.map (fun t => t.task_id)).take k := by
    rw [hiter, executePendingTasks_ids, List.map_take]
  have hiternd : (iter.map (fun r => r.task_id)).Nodup := by
    rw [hiterids]
    exact hpnd.sublist (List.take_sublist k _)
  have hitersub : ∀ id ∈ iter.map (fun r => r.task_id),
      id ∈ ctx.pending_tasks.map (fun t => t.task_id) := by
    intro id hid
    rw [hiterids] at hid
    exact List.take_subset k _ hid
  refine ⟨?_, ?_, ?_, ?_, ?_⟩
  · apply hpnd.sublist
    exact List.Sublist.map (fun t : SubAgentTask => t.task_id)
      (List.filter_sublist ctx.pending_tasks)
  · show ((ctx.completed_tasks ++ iter).map (fun r => r.task_id)).Nodup
    rw [List.map_append]
    refine hcnd.append hiternd ?_
    intro id hid1 hid2
    exact hdisj id (hitersub id hid2) hid1
  · intro t ht
    have : t ∈ ctx.pending_tasks := List.mem_of_mem_filter ht
    exact hpb t this
  · intro r hr
    rcases List.mem_append.mp hr with hr | hr
    · exact hcb r hr
    · have : r.task_id ∈ iter.map (fun x => x.task_id) :=
        List.mem_map_of_mem (fun x => x.task_id) hr
      have hmem := hitersub _ this
      rcases List.mem_map.mp hmem with ⟨t, htp, hte⟩
      rcases hpb t htp with ⟨n, hn, he⟩
      exact ⟨n, hn, by rw [← hte, he]⟩
  · intro id hid hidc
    show False
    rcases List.mem_map.mp hid with ⟨t, htf, hte⟩
    have htfilter := List.mem_filter.mp htf
    obtain ⟨htp, hcond⟩ := htfilter
    simp only [decide_eq_true_eq, List.any_eq_true, not_exists] at hcond
    rcases List.mem_map.mp hidc with ⟨r, hrmem, hre⟩
    rcases List.mem_append.mp hrmem with hr | hr
    · exact hdisj id (by exact hte ▸ List.mem_map_of_mem _ htp)
        (by exact hre ▸ List.mem_map_of_mem _ hr)
    · exact hcond r ⟨hr, by rw [hre, hte]⟩

theorem followupAdds_ids (env : LeadEnv) (k : ℕ) (rs : List SubAgentResult)
    (c : ℕ) :
    c ≤ (followupAdds env k rs c).2 ∧
    (((followupAdds env k rs c).1.map (fun t => t.task_id)).Nodup) ∧
    ∀ t ∈ (followupAdds env k rs c).1,
      ∃ n, c ≤ n ∧ n < (followupAdds env k rs c).2 ∧ t.task_id = uuid n := by
  unfold followupAdds
  split
  · have hle := createFollowupTasks_le (env.followupThink k) c
    obtain ⟨h1, h2, h3⟩ := followupPending_ids
      (createFollowupTasks (env.followupThink k) c).1
      (createFollowupTasks (env.followupThink k) c).2
    refine ⟨by omega, h2, ?_⟩
    intro t ht
    rcases h3 t ht with ⟨n, hn1, hn2, hn3⟩
    exact ⟨n, by omega, hn2, hn3⟩
  · refine ⟨le_refl c, List.nodup_nil, ?_⟩
    intro t ht
    simp at ht

theorem ctx_append_inv (ctx : ResearchContext) (c c' : ℕ)
    (adds : List SubAgentTask) (hinv : CtxInv ctx c) (hle : c ≤ c')
    (hnd : ((adds.map (fun t => t.task_id)).Nodup))
    (hrange : ∀ t ∈ adds, ∃ n, c ≤ n ∧ n < c' ∧ t.task_id = uuid n) :
    CtxInv { ctx with pending_tasks := ctx.pending_tasks ++ adds } c' := by
  obtain ⟨hpnd, hcnd, hpb, hcb, hdisj⟩ := hinv
  refine ⟨?_, hcnd, ?_, ?_, ?_⟩
  · show ((ctx.pending_tasks ++ adds).map (fun t => t.task_id)).Nodup
    rw [List.map_append]
    refine hpnd.append hnd ?_
    intro id hid1 hid2
    rcases List.mem_map.mp hid1 with ⟨t, ht, hte⟩
    rcases hpb t ht with ⟨n, hn, he⟩
    rcases List.mem_map.mp hid2 with ⟨t', ht', hte'⟩
    rcases hrange t' ht' with ⟨m, hm1, hm2, hm3⟩
    have : uuid n = uuid m := by
      rw [← he, hte, ← hte', hm3]
    have := uuid_inj this
    omega
  · intro t ht
    rcases List.mem_append.mp ht with ht | ht
    · rcases hpb t ht with ⟨n, hn, he⟩
      exact ⟨n, by omega, he⟩
    · rcases hrange t ht with ⟨n, hn1, hn2, hn3⟩
      exact ⟨n, hn2, hn3⟩
  · intro r hr
    rcases hcb r hr with ⟨n, hn, he⟩
    exact ⟨n, by omega, he⟩
  · intro id hid hidc
    show False
    simp only [List.map_append] at hid
    rcases List.mem_append.mp hid with hid | hid
    · exact hdisj id hid hidc
    · rcases List.mem_map.mp hid with ⟨t, ht, hte⟩
      rcases hrange t ht with ⟨n, hn1, hn2, hn3⟩
      rcases List.mem_map.mp hidc with ⟨r, hrm, hre⟩
      rcases hcb r hrm with ⟨m, hm, hme⟩
      have : uuid n = uuid m := by
        rw [← hn3, hte, ← hre, hme]
      have := uuid_inj this
      omega

theorem roundUpdate_iteration_count (ctx : ResearchContext)
    (iter : List SubAgentResult) :
    (roundUpdate ctx iter).iteration_count = ctx.iteration_count := rfl

theorem execLoop_rounds (env : LeadEnv) (ma : Option ℕ) (mi : ℕ) :
    ∀ (fuel : ℕ) (ctx : ResearchContext) (results : List SubAgentResult)
      (st : LeadState),
      (execLoop env ma mi fuel ctx results st).2.2.rounds
        ≤ st.rounds + (mi - ctx.iteration_count) := by
  intro fuel
  induction fuel with
  | zero => intro ctx results st; simp [execLoop]
  | succ fuel ih =>
    intro ctx results st
    simp only [execLoop]
    split
    case isTrue h =>
      refine le_trans (ih _ _ _) ?_
      have hlt := h.1
      dsimp only
      simp only [roundUpdate_iteration_count]
      omega
    case isFalse h => simp

theorem execLoop_acc (env : LeadEnv) (ma : Option ℕ) (mi : ℕ) :
    ∀ (fuel : ℕ) (ctx : ResearchContext) (results : List SubAgentResult)
      (st : LeadState), ∃ delta,
      (execLoop env ma mi fuel ctx results st).1 = results ++ delta ∧
      (execLoop env ma mi fuel ctx results st).2.1.completed_tasks
        = ctx.completed_tasks ++ delta := by
  intro fuel
  induction fuel with
  | zero =>
    intro ctx results st
    exact ⟨[], by simp [execLoop], by simp [execLoop]⟩
  | succ fuel ih =>
    intro ctx results st
    simp only [execLoop]
    split
    case isTrue h =>
      obtain ⟨delta, hd1, hd2⟩ := ih _ _ _
      refine ⟨executePendingTasks env ma
        { ctx with iteration_count := ctx.iteration_count + 1 } ++ delta, ?_, ?_⟩
      · rw [hd1]
        simp [List.append_assoc]
      · rw [hd2]
        dsimp only [roundUpdate]
        simp [List.append_assoc]
    case isFalse h => exact ⟨[], by simp, by simp⟩

theorem execLoop_inv (env : LeadEnv) (ma : Option ℕ) (mi : ℕ) :
    ∀ (fuel : ℕ) (ctx : ResearchContext) (results : List SubAgentResult)
      (st : LeadState),
      CtxInv ctx st.ctr →
      ((st.allTasks.map (fun t => t.task_id)).Nodup) →
      TaskIdsBelow st.allTasks st.ctr →
      (∀ s ∈ st.snapshots, SnapOk s) →
      (CtxInv (execLoop env ma mi fuel ctx results st).2.1
          (execLoop env ma mi fuel ctx results st).2.2.ctr ∧
        (((execLoop env ma mi fuel ctx results st).2.2.allTasks.map
            (fun t => t.task_id)).Nodup) ∧
        TaskIdsBelow (execLoop env ma mi fuel ctx results st).2.2.allTasks
          (execLoop env ma mi fuel ctx results st).2.2.ctr ∧
        ∀ s ∈ (execLoop env ma mi fuel ctx results st).2.2.snapshots,
          SnapOk s) := by
  intro fuel
  induction fuel with
  | zero =>
    intro ctx results st h1 h2 h3 h4
    exact ⟨h1, h2, h3, h4⟩
  | succ fuel ih =>
    intro ctx results st h1 h2 h3 h4
    simp only [execLoop]
    split
    case isFalse h => exact ⟨h1, h2, h3, h4⟩
    case isTrue h =>
      set ctx1 := { ctx with iteration_count := ctx.iteration_count + 1 } with hctx1
      have hinv1 : CtxInv ctx1 st.ctr := h1
      have hinv2 : CtxInv (roundUpdate ctx1 (executePendingTasks env ma ctx1))
          st.ctr := roundUpdate_inv env ma ctx1 st.ctr hinv1
      set ctx2 := roundUpdate ctx1 (executePendingTasks env ma ctx1) with hctx2
      obtain ⟨ha1, ha2, ha3⟩ := followupAdds_ids env ctx2.iteration_count
        (results ++ executePendingTasks env ma ctx1) st.ctr
      apply ih
      · dsimp only
        exact ctx_append_inv ctx2 st.ctr _ _ hinv2 ha1 ha2 ha3
      · dsimp only
        rw [List.map_append]
        refine h2.append ha2 ?_
        intro id hid1 hid2
        rcases List.mem_map.mp hid1 with ⟨t, ht, hte⟩
        rcases h3 t ht with ⟨n, hn, he⟩
        rcases List.mem_map.mp hid2 with ⟨t', ht', hte'⟩
        rcases ha3 t' ht' with ⟨m, hm1, hm2, hm3⟩
        have : uuid n = uuid m := by rw [← he, hte, ← hte', hm3]
        have := uuid_inj this
        omega
      · dsimp only
        intro t ht
        rcases List.mem_append.mp ht with ht | ht
        · rcases h3 t ht with ⟨n, hn, he⟩
          exact ⟨n, by omega, he⟩
        · rcases ha3 t ht with ⟨n, hn1, hn2, hn3⟩
          exact ⟨n, hn2, hn3⟩
      · dsimp only
        intro s hs
        rcases List.mem_append.mp hs with hs | hs
        · exact h4 s hs
        · rcases List.mem_singleton.mp hs with rfl
          exact ⟨hinv2.1, hinv2.2.2.2.2⟩

theorem performSearchesSeqAux_trace
    (tool : String → ℕ → Except String ToolResult)
    (parseResp : String → String → List SearchResult) (rpq maxResults : ℕ) :
    ∀ (qs : List String) (acc : List SearchResult),
      (performSearchesSeqAux tool parseResp rpq maxResults qs acc).1
        = specSeqTrace tool rpq qs := by
  intro qs
  induction qs with
  | nil => intro acc; rfl
  | cons q rest ih =>
    intro acc
    rw [performSearchesSeqAux, specSeqTrace]
    cases htool : tool q rpq with
    | error e => simp [ih]
    | ok tres => simp [ih]

theorem startedQueries_specSeqTrace
    (tool : String → ℕ → Except String ToolResult) (rpq : ℕ) :
    ∀ qs : List String, startedQueries (specSeqTrace tool rpq qs) = qs := by
  intro qs
  induction qs with
  | nil => rfl
  | cons q rest ih =>
    rw [specSeqTrace]
    cases htool : tool q rpq with
    | error e => simp [startedQueries, List.filterMap_append] at ih ⊢; exact ih
    | ok tres =>
      by_cases hrest : rest.isEmpty <;>
        simp [hrest, startedQueries, List.filterMap_append] at ih ⊢ <;> exact ih

theorem inFlight_cons_block (q : String) (p : List SearchEv) :
    inFlight (SearchEv.callStart q :: SearchEv.callEnd q :: p) = inFlight p := by
  simp [inFlight, inFlightAux]

theorem nti_cons_block (q : String) (d tr : List SearchEv)
    (hd : d = [] ∨ d = [SearchEv.delayed]) (h : NeverTwoInFlight tr) :
    NeverTwoInFlight
      (SearchEv.callStart q :: SearchEv.callEnd q :: (d ++ tr)) := by
  intro p hp
  rcases p with _ | ⟨x, p1⟩
  · simp [inFlight, inFlightAux]
  rcases List.cons_prefix_cons.mp hp with ⟨rfl, hp1⟩
  rcases p1 with _ | ⟨y, p2⟩
  · simp [inFlight, inFlightAux]
  rcases List.cons_prefix_cons.mp hp1 with ⟨rfl, hp2⟩
  rw [inFlight_cons_block]
  rcases hd with rfl | rfl
  · rw [List.nil_append] at hp2
    exact h p2 hp2
  · rcases p2 with _ | ⟨z, p3⟩
    · simp [inFlight, inFlightAux]
    rcases List.cons_prefix_cons.mp hp2 with ⟨rfl, hp3⟩
    have : inFlight (SearchEv.delayed :: p3) = inFlight p3 := by
      simp [inFlight, inFlightAux]
    rw [this]
    exact h p3 hp3

theorem nti_specSeqTrace (tool : String → ℕ → Except String ToolResult)
    (rpq : ℕ) : ∀ qs : List String,
      NeverTwoInFlight (specSeqTrace tool rpq qs) := by
  intro qs
  induction qs with
  | nil =>
    intro p hp
    rw [List.prefix_nil.mp hp]
    simp [inFlight, inFlightAux]
  | cons q rest ih =>
    rw [specSeqTrace]
    apply nti_cons_block
    · cases htool : tool q rpq with
      | error e => exact Or.inl rfl
      | ok tres =>
        by_cases hrest : rest.isEmpty <;> simp [hrest]
    · exact ih

theorem evalStep_valid (results acc : List SearchResult) (k : ℕ)
    (hk : k < results.length) (s : ℚ) (hs : s ≠ 0) :
    evalStep results acc (EvalEntry.mk (k : ℤ) (some s)) =
      if 6/10 ≤ s then
        acc ++ [{ results[k] with relevance_score := s }]
      else acc := by
  dsimp [evalStep]
  rw [if_pos]
  · rw [List.getElem?_eq_getElem hk]
    dsimp [jsOrQ]
    rw [if_neg hs]
  · exact ⟨by positivity, by exact_mod_cast hk⟩

theorem evalStep_fold_mapIdx :
    ∀ (suf pre acc : List SearchResult) (g : ℕ → ℚ),
      (∀ j < suf.length, 6/10 ≤ g j) →
      (suf.mapIdx (fun i _ =>
          EvalEntry.mk ((pre.length + i : ℕ) : ℤ) (some (g i)))).foldl
          (evalStep (pre ++ suf)) acc
        = acc ++ suf.mapIdx (fun i r => { r with relevance_score := g i }) := by
  intro suf
  induction suf with
  | nil => intro pre acc g _; simp
  | cons r suf ih =>
    intro pre acc g hg
    rw [List.mapIdx_cons, List.mapIdx_cons, List.foldl_cons]
    have hg0 : 6/10 ≤ g 0 := hg 0 (by simp)
    have hne : g 0 ≠ 0 := by
      intro h0
      rw [h0] at hg0
      norm_num at hg0
    have hklt : pre.length + 0 < (pre ++ r :: suf).length := by
      simp
    have hstep := evalStep_valid (pre ++ r :: suf) acc (pre.length + 0) hklt (g 0) hne
    rw [if_pos hg0] at hstep
    have hgetr : (pre ++ r :: suf)[pre.length + 0] = r := by
      simp only [Nat.add_zero]
      rw [List.getElem_append_right (le_refl _)]
      simp
    rw [hgetr] at hstep
    rw [hstep]
    have hfun : (fun (i : ℕ) (_ : SearchResult) =>
          EvalEntry.mk ((pre.length + (i + 1) : ℕ) : ℤ) (some (g (i + 1))))
        = (fun (i : ℕ) (_ : SearchResult) =>
          EvalEntry.mk (((pre ++ [r]).length + i : ℕ) : ℤ) (some (g (i + 1)))) := by
      funext i x
      simp only [EvalEntry.mk.injEq, List.length_append, List.length_singleton, and_true]
      push_cast
      ring
    have happ : pre ++ r :: suf = (pre ++ [r]) ++ suf := by simp
    rw [hfun, happ]
    have hrec := ih (pre ++ [r]) (acc ++ [{ r with relevance_score := g 0 }])
      (fun i => g (i + 1)) (fun j hj => hg (j + 1) (by simpa using Nat.succ_lt_succ hj))
    rw [hrec]
    simp

end Heavy

/-- Claim C4, counterexample: the sufficiency heuristic counts sources with
multiplicity, not distinct sources. On a context holding eight copies of one
identical source with relevance 0.9, the code deems the evidence sufficient
(needsMoreResearch is false), yet only one distinct source was collected, so
the claim's distinct-source reading demands insufficiency. -/
theorem C4_counterexample :
    Heavy.needsMoreResearch Heavy.c4Results = false ∧
    Heavy.needsMoreResearchSpec Heavy.c4Results = true ∧
    (Heavy.dedupByUrl (Heavy.c4Results.flatMap (fun r => r.sources))).length = 1 := by
  refine ⟨?_, ?_, ?_⟩
  · norm_num [Heavy.needsMoreResearch, Heavy.c4Results, Heavy.c4Source,
      Heavy.sumScores, Heavy.jsDiv, Heavy.jsLt, List.replicate]
  · norm_num [Heavy.needsMoreResearchSpec, Heavy.c4Results, Heavy.c4Source,
      Heavy.dedupByUrl, Heavy.sumScores, List.replicate]
  · norm_num [Heavy.c4Results, Heavy.c4Source, Heavy.dedupByUrl, List.replicate]

/-- Claim C4, amended: the heuristic deems the evidence insufficient exactly
when the number of collected source entries counted WITH multiplicity (no
URL deduplication) is below 8, or there is at least one source entry and the
average relevance score over all entries is below 0.7. -/
theorem C4_needsMoreResearch_iff (results : List Heavy.SubAgentResult) :
    Heavy.needsMoreResearch results = true ↔
      ((results.flatMap (fun r => r.sources)).length < 8 ∨
        (0 < (results.flatMap (fun r => r.sources)).length ∧
          Heavy.sumScores (results.flatMap (fun r => r.sources)) /
            (results.flatMap (fun r => r.sources)).length < 7/10)) := by
  unfold Heavy.needsMoreResearch
  set sources := results.flatMap (fun r => r.sources) with hs
  by_cases hlt : sources.length < 8
  · simp only [hlt, decide_eq_true_eq, Bool.or_eq_true]
    tauto
  · have hpos : 0 < sources.length := by omega
    have hresults : 0 < results.length := by
      rcases results with _ | ⟨r, rest⟩
      · simp [hs] at hpos
      · simp
    have hne : (sources.length : ℚ) ≠ 0 := by
      exact_mod_cast Nat.pos_iff_ne_zero.mp hpos
    simp only [hresults, if_pos, Heavy.jsDiv, if_neg hne, Heavy.jsLt,
      Bool.or_eq_true, decide_eq_true_eq]
    constructor
    · intro h
      rcases h with h | h
      · exact absurd h hlt
      · exact Or.inr ⟨hpos, h⟩
    · intro h
      rcases h with h | ⟨_, h⟩
      · exact absurd h hlt
      · exact Or.inr h

/-- Claim C7, counterexample: when the scoring call fails, the
domain-authority fallback keeps non-authority results at a rewritten score
of 0.5, so a result with relevance score below 0.6 is returned rather than
excluded, refuting the claim's unconditional 0.6 filter. -/
theorem C7_counterexample :
    ∃ r ∈ Heavy.evaluateResults Heavy.c7Think [Heavy.c7Result],
      r.relevance_score < 6/10 := by
  have hcond : (Heavy.jsTruthyStr Heavy.c7Think.error ||
      (Heavy.c7Think.evaluations).isNone) = true := by decide
  have hauth : Heavy.hasAuthorityDomain Heavy.c7Result.url = false := by decide
  refine ⟨{ Heavy.c7Result with relevance_score := 1/2 }, ?_, by norm_num⟩
  unfold Heavy.evaluateResults
  rw [hcond]
  simp only [if_true, List.map_cons, List.map_nil, hauth, if_false]
  norm_num

/-- Claim C7, amended: on the evaluation path (the scoring call succeeded
and returned an evaluations list), every returned source carries a rewritten
relevance score of at least 0.6; when the evaluations cover each result
index with a score of at least 0.6, every result is included with its
assigned score; and re-evaluating the returned list against its own scores
returns it unchanged (idempotence). When the scoring call fails, the
fallback keeps results scoring at least 0.5 instead (see the
counterexample). -/
theorem C7_evaluateResults_threshold (tv : Heavy.ThinkV)
    (results : List Heavy.SearchResult) (es : List Heavy.EvalEntry)
    (f : ℕ → ℚ) (herr : tv.error = none) (hev : tv.evaluations = some es) :
    (∀ r ∈ Heavy.evaluateResults tv results, 6/10 ≤ r.relevance_score) ∧
    (es = results.mapIdx (fun i _ => Heavy.EvalEntry.mk (i : ℤ) (some (f i))) →
      (∀ i, 6/10 ≤ f i) →
      Heavy.evaluateResults tv results
        = results.mapIdx (fun i r => { r with relevance_score := f i })) ∧
    Heavy.evaluateResults (Heavy.selfEvalTV (Heavy.evaluateResults tv results))
        (Heavy.evaluateResults tv results)
      = Heavy.evaluateResults tv results := by
  have hcond : (Heavy.jsTruthyStr tv.error || (tv.evaluations).isNone) = false := by
    rw [herr, hev]
    rfl
  have hunfold : Heavy.evaluateResults tv results
      = es.foldl (Heavy.evalStep results) [] := by
    unfold Heavy.evaluateResults
    rw [hcond, hev]
    simp
  have hthresh : ∀ r ∈ Heavy.evaluateResults tv results, 6/10 ≤ r.relevance_score := by
    rw [hunfold]
    exact Heavy.evalStep_fold_ge results es [] (by simp)
  refine ⟨hthresh, ?_, ?_⟩
  · intro hes hf
    rw [hunfold, hes]
    have hlem := Heavy.evalStep_fold_mapIdx results [] [] f (fun j _ => hf j)
    simp only [List.nil_append, List.length_nil, Nat.zero_add] at hlem
    exact hlem
  · set out := Heavy.evaluateResults tv results with hout
    have hcond2 : (Heavy.jsTruthyStr (Heavy.selfEvalTV out).error ||
        ((Heavy.selfEvalTV out).evaluations).isNone) = false := rfl
    conv_lhs => rw [Heavy.evaluateResults]
    rw [hcond2]
    simp only [Bool.false_eq_true, if_false, Heavy.selfEvalTV, Option.getD_some]
    have hlem := Heavy.evalStep_fold_mapIdx out [] []
      (fun i => (out.getD i Heavy.dummySearchResult).relevance_score)
      (fun j hj => by
        simp only
        rw [List.getD_eq_getElem _ _ hj]
        exact hthresh _ (List.getElem_mem hj))
    simp only [List.nil_append, List.length_nil, Nat.zero_add] at hlem
    rw [hlem]
    apply List.ext_getElem
    · simp
    · intro i h1 h2
      rw [List.getElem_mapIdx]
      rw [List.getD_eq_getElem _ _ (by simpa using h1)]

/-- Claim C3, counterexample: the legacy SearchSubAgent variant of the
agents module fans its searches out through one parallel join, so with two
generated queries both searches are in flight at once (the prefix holding
the two callStart events has two open calls) and no inter-call delay event
exists, refuting the claim for that variant. -/
theorem C3_counterexample :
    ¬ Heavy.NeverTwoInFlight
        (Heavy.performSearchesPar Heavy.c3RunAgent Heavy.c3Parse ["a", "b"] 5).1 ∧
    Heavy.SearchEv.delayed ∉
      (Heavy.performSearchesPar Heavy.c3RunAgent Heavy.c3Parse ["a", "b"] 5).1 := by
  constructor
  · intro h
    have hpre : [Heavy.SearchEv.callStart "a", Heavy.SearchEv.callStart "b"] <+:
        (Heavy.performSearchesPar Heavy.c3RunAgent Heavy.c3Parse ["a", "b"] 5).1 :=
      ⟨[Heavy.SearchEv.callEnd "a", Heavy.SearchEv.callEnd "b"], rfl⟩
    have := h _ hpre
    simp [Heavy.inFlight, Heavy.inFlightAux] at this
  · decide

/-- Claim C3, amended: in the research pipeline's SearchSubAgent (the
sequential variant used by the Lead Agent), one tool invocation is issued
per generated query in order, never two in flight at once, with the
inter-call delay between consecutive searches (skipped after a throwing
call, whose catch also skips the delay, and absent after the final query);
the produced event trace is exactly the sequential block trace. The legacy
agents-module variant instead dispatches all searches in parallel with no
delay (see the counterexample). -/
theorem C3_sequential_searches (tool : String → ℕ → Except String Heavy.ToolResult)
    (parseResp : String → String → List Heavy.SearchResult)
    (queries : List String) (maxResults : ℕ) :
    (Heavy.performSearchesSeq tool parseResp queries maxResults).1
      = Heavy.specSeqTrace tool
          (Heavy.resultsPerQuery maxResults queries.length) queries ∧
    Heavy.startedQueries
        (Heavy.performSearchesSeq tool parseResp queries maxResults).1 = queries ∧
    Heavy.NeverTwoInFlight
      (Heavy.performSearchesSeq tool parseResp queries maxResults).1 := by
  have htr : (Heavy.performSearchesSeq tool parseResp queries maxResults).1
      = Heavy.specSeqTrace tool
          (Heavy.resultsPerQuery maxResults queries.length) queries := by
    unfold Heavy.performSearchesSeq
    exact Heavy.performSearchesSeqAux_trace tool parseResp _ maxResults queries []
  refine ⟨htr, ?_, ?_⟩
  · rw [htr]
    exact Heavy.startedQueries_specSeqTrace tool _ queries
  · rw [htr]
    exact Heavy.nti_specSeqTrace tool _ queries

/-- Claim C5: when the planning completion call returns text from which no
structured plan can be parsed (the brace-extraction regex finds nothing, or
the JSON parser rejects the extracted text), the think call degrades to a
raw analysis value and createResearchPlan returns, without throwing, a plan
consisting of exactly one subtask whose objective is the raw query string,
with the default strategy and complexity. -/
theorem C5_planning_fallback (q : Heavy.ResearchQuery) (t stringifyTv : String)
    (parse : String → Option Heavy.ThinkV) (ctr : ℕ) (ht : t ≠ "")
    (hnoparse : (Heavy.extractBraced t).bind parse = none) :
    Heavy.think (Except.ok t) parse = { analysis := some t } ∧
    ∃ plan : Heavy.ResearchPlan,
      Heavy.createResearchPlan q (Heavy.think (Except.ok t) parse) stringifyTv
          parse ctr = (Except.ok plan, ctr + 2) ∧
      plan.subtasks = [{ task_id := Heavy.uuid ctr, objective := q.query,
                         search_focus := "Comprehensive information gathering",
                         expected_output_format := "Key findings and insights",
                         max_searches := some 5,
                         status := Heavy.TaskStatus.pending }] ∧
      plan.strategy = "Comprehensive multi-angle research approach" ∧
      plan.estimated_complexity = "moderate" := by
  have hparse : ∀ m, Heavy.extractBraced t = some m → parse m = none := by
    intro m hm
    rw [hm] at hnoparse
    simpa using hnoparse
  have hthink : Heavy.think (Except.ok t) parse = { analysis := some t } := by
    simp only [Heavy.think]
    cases hx : Heavy.extractBraced t with
    | none => rfl
    | some m => simp only [hparse m hx]
  refine ⟨hthink, ?_⟩
  rw [hthink]
  refine ⟨{ plan_id := Heavy.uuid (ctr + 1)
            strategy := "Comprehensive multi-angle research approach"
            subtasks := [{ task_id := Heavy.uuid ctr, objective := q.query,
                           search_focus := "Comprehensive information gathering",
                           expected_output_format := "Key findings and insights",
                           max_searches := some 5,
                           status := Heavy.TaskStatus.pending }]
            estimated_complexity := "moderate" }, ?_, rfl, rfl, rfl⟩
  cases hx : Heavy.extractBraced t with
  | none =>
    simp [Heavy.createResearchPlan, Heavy.jsTruthyStr, Heavy.jsOrStr,
      Heavy.defaultRawSubtask, Heavy.jsOrNat, hx, ht]
  | some m =>
    simp [Heavy.createResearchPlan, Heavy.jsTruthyStr, Heavy.jsOrStr,
      Heavy.defaultRawSubtask, Heavy.jsOrNat, hx, hparse m hx, ht]

/-- Claim C5, witness: the fallback theorem applied to a concrete query and
a planning response holding no JSON object at all. -/
theorem C5_witness :
    Heavy.think (Except.ok "no structured plan here") (fun _ => none)
      = { analysis := some "no structured plan here" } ∧
    ∃ plan : Heavy.ResearchPlan,
      Heavy.createResearchPlan
          { query := "compare electric and gasoline vehicles"
            max_subagents := some 2, max_iterations := some 1 }
          (Heavy.think (Except.ok "no structured plan here") (fun _ => none))
          "" (fun _ => none) 0 = (Except.ok plan, 0 + 2) ∧
      plan.subtasks = [{ task_id := Heavy.uuid 0,
                         objective := "compare electric and gasoline vehicles",
                         search_focus := "Comprehensive information gathering",
                         expected_output_format := "Key findings and insights",
                         max_searches := some 5,
                         status := Heavy.TaskStatus.pending }] ∧
      plan.strategy = "Comprehensive multi-angle research approach" ∧
      plan.estimated_complexity = "moderate" :=
  C5_planning_fallback
    { query := "compare electric and gasoline vehicles"
      max_subagents := some 2, max_iterations := some 1 }
    "no structured plan here" "" (fun _ => none) 0 (by decide)
    (by cases hx : Heavy.extractBraced "no structured plan here" <;> rfl)

/-- Claim C9: with at least one citation, the bibliography block appended to
the report is exactly a References heading followed by one line per citation
of the form: bracketed ordinal id, title, hostname, url, and the
parenthesised access date, each entry separated by a blank line, with a
trailing stats block carrying the citation count and the mean relevance
rounded to two decimals; an empty citation list leaves the report
untouched. -/
theorem C9_bibliography_format (today report : String)
    (citations : List Heavy.Citation) (h : citations ≠ []) :
    Heavy.generateBibliography today report citations =
      report ++ "\n\n## References\n\n" ++
        String.intercalate "\n\n" (citations.map (fun c =>
          "[" ++ c.id ++ "] " ++ c.title ++ ". " ++ Heavy.hostname c.url ++
            ". " ++ c.url ++ " (accessed " ++ today ++ ")")) ++
        "\n\n---\n*Total sources cited: " ++ Heavy.natToStr citations.length ++
        "*\n*Average source relevance: " ++
        Heavy.toFixed2 (Heavy.sumRelevances citations / citations.length) ++
        "*" ∧
    Heavy.generateBibliography today report [] = report := by
  constructor
  · unfold Heavy.generateBibliography
    rw [if_neg (fun hc => h (List.length_eq_zero.mp hc))]
  · rfl

/-- Claim C9, witness: the format theorem applied at one concrete citation
with relevance 0.9 and a fixed access date, with both sides evaluated. -/
theorem C9_witness :
    Heavy.generateBibliography "2026-10-11" "Report body" [Heavy.w9citation] =
      "Report body\n\n## References\n\n[1] T. example.org. https://example.org/x (accessed 2026-10-11)\n\n---\n*Total sources cited: 1*\n*Average source relevance: 0.90*" := by
  rw [(C9_bibliography_format "2026-10-11" "Report body" [Heavy.w9citation]
    (by simp)).1]
  have harg : Heavy.sumRelevances [Heavy.w9citation] /
      (([Heavy.w9citation] : List Heavy.Citation).length : ℚ) = 9/10 := by
    norm_num [Heavy.sumRelevances, Heavy.w9citation]
  rw [harg]
  have hfix : Heavy.toFixed2 (9/10) = "0.90" := by
    unfold Heavy.toFixed2
    have h1 : (9/10 : ℚ) * 100 + 1/2 = 181/2 := by norm_num
    rw [h1]
    have h2 : (Int.floor ((181 : ℚ)/2)) = 90 := by
      norm_num [Int.floor_eq_iff]
    rw [h2]
    decide
  rw [hfix]
  decide

/-- Claim C7, witness: the amended theorem applied at a concrete two-result
input whose evaluation entries assign scores 0.8 and 0.7. -/
theorem C7_witness :
    (∀ r ∈ Heavy.evaluateResults Heavy.w7tv Heavy.w7results,
        6/10 ≤ r.relevance_score) ∧
    (Heavy.w7es = Heavy.w7results.mapIdx
        (fun i _ => Heavy.EvalEntry.mk (i : ℤ) (some (Heavy.w7f i))) →
      (∀ i, 6/10 ≤ Heavy.w7f i) →
      Heavy.evaluateResults Heavy.w7tv Heavy.w7results
        = Heavy.w7results.mapIdx
            (fun i r => { r with relevance_score := Heavy.w7f i })) ∧
    Heavy.evaluateResults
        (Heavy.selfEvalTV (Heavy.evaluateResults Heavy.w7tv Heavy.w7results))
        (Heavy.evaluateResults Heavy.w7tv Heavy.w7results)
      = Heavy.evaluateResults Heavy.w7tv Heavy.w7results :=
  C7_evaluateResults_threshold Heavy.w7tv Heavy.w7results Heavy.w7es Heavy.w7f
    rfl rfl

namespace Heavy

theorem countP_flatMap {α β : Type} (l : List α) (f : α → List β)
    (p : β → Bool) :
    (l.flatMap f).countP p = (l.map (fun a => (f a).countP p)).sum := by
  induction l with
  | nil => rfl
  | cons x t ih => simp [List.flatMap_cons, List.countP_append, ih]

theorem roundUpdate_completed (ctx : ResearchContext)
    (iter : List SubAgentResult) :
    (roundUpdate ctx iter).completed_tasks = ctx.completed_tasks ++ iter := rfl

end Heavy

/-- Claim C2: within one iteration round, a dispatched task whose
executeTask throws still yields a settled result: the round produces one
result per dispatched task in dispatch order, the failed task's result has
empty findings and sources with the error message in its summary, the
failed task is moved from pending to completed by the round update, and
every other dispatched task still yields its own result. -/
theorem C2_failed_task_isolated (env : Heavy.LeadEnv) (maxAgents : Option ℕ)
    (ctx : Heavy.ResearchContext) (t : Heavy.SubAgentTask) (e : String)
    (ht : t ∈ ctx.pending_tasks.take (Heavy.jsOrNat maxAgents 3))
    (hfail : env.runTaskCore t = Except.error e) :
    (Heavy.executePendingTasks env maxAgents ctx).map (fun r => r.task_id)
      = (ctx.pending_tasks.take (Heavy.jsOrNat maxAgents 3)).map
          (fun x => x.task_id) ∧
    Heavy.taskOutcome env t
      = { task_id := t.task_id, findings := [], sources := []
          summary := "Task failed: " ++ e, token_count := 0 } ∧
    Heavy.taskOutcome env t ∈ Heavy.executePendingTasks env maxAgents ctx ∧
    (∀ t' ∈ ctx.pending_tasks.take (Heavy.jsOrNat maxAgents 3),
      Heavy.taskOutcome env t' ∈ Heavy.executePendingTasks env maxAgents ctx) ∧
    t.task_id ∈ (Heavy.roundUpdate ctx
        (Heavy.executePendingTasks env maxAgents ctx)).completed_tasks.map
        (fun r => r.task_id) ∧
    t.task_id ∉ (Heavy.roundUpdate ctx
        (Heavy.executePendingTasks env maxAgents ctx)).pending_tasks.map
        (fun x => x.task_id) := by
  have hout : Heavy.taskOutcome env t
      = { task_id := t.task_id, findings := [], sources := []
          summary := "Task failed: " ++ e, token_count := 0 } := by
    unfold Heavy.taskOutcome Heavy.runTask
    rw [hfail]
  have hmem : Heavy.taskOutcome env t ∈
      Heavy.executePendingTasks env maxAgents ctx :=
    List.mem_map_of_mem (Heavy.taskOutcome env) ht
  refine ⟨Heavy.executePendingTasks_ids env maxAgents ctx, hout, hmem, ?_, ?_, ?_⟩
  · intro t' ht'
    exact List.mem_map_of_mem (Heavy.taskOutcome env) ht'
  · rw [Heavy.roundUpdate_completed, List.map_append]
    apply List.mem_append_right
    have hm := List.mem_map_of_mem (fun r => r.task_id) hmem
    simp only at hm
    rwa [Heavy.taskOutcome_id] at hm
  · intro hbad
    rcases List.mem_map.mp hbad with ⟨task, htask, hte⟩
    have hfil := List.mem_filter.mp htask
    obtain ⟨_, hcond⟩ := hfil
    simp only [decide_eq_true_eq, List.any_eq_true, not_exists] at hcond
    exact hcond (Heavy.taskOutcome env t)
      ⟨hmem, by rw [Heavy.taskOutcome_id, hte]⟩

/-- Claim C2, witness: the isolation theorem at a concrete two-task round
whose first subagent crashes and whose second succeeds. -/
theorem C2_witness :
    (Heavy.executePendingTasks Heavy.w2env (some 3) Heavy.w2ctx).map
        (fun r => r.task_id)
      = (Heavy.w2ctx.pending_tasks.take (Heavy.jsOrNat (some 3) 3)).map
          (fun x => x.task_id) ∧
    Heavy.taskOutcome Heavy.w2env Heavy.w2task1
      = { task_id := Heavy.w2task1.task_id, findings := [], sources := []
          summary := "Task failed: " ++ "search agent crashed"
          token_count := 0 } ∧
    Heavy.taskOutcome Heavy.w2env Heavy.w2task1 ∈
      Heavy.executePendingTasks Heavy.w2env (some 3) Heavy.w2ctx ∧
    (∀ t' ∈ Heavy.w2ctx.pending_tasks.take (Heavy.jsOrNat (some 3) 3),
      Heavy.taskOutcome Heavy.w2env t' ∈
        Heavy.executePendingTasks Heavy.w2env (some 3) Heavy.w2ctx) ∧
    Heavy.w2task1.task_id ∈ (Heavy.roundUpdate Heavy.w2ctx
        (Heavy.executePendingTasks Heavy.w2env (some 3) Heavy.w2ctx)).completed_tasks.map
        (fun r => r.task_id) ∧
    Heavy.w2task1.task_id ∉ (Heavy.roundUpdate Heavy.w2ctx
        (Heavy.executePendingTasks Heavy.w2env (some 3) Heavy.w2ctx)).pending_tasks.map
        (fun x => x.task_id) :=
  C2_failed_task_isolated Heavy.w2env (some 3) Heavy.w2ctx Heavy.w2task1
    "search agent crashed" (by decide) rfl

/-- Claim C1: for every query and every environment of external-call
outcomes (including environments where every call fails), conductResearch
is a total function executing at most max_iterations iteration rounds and
returning a ResearchResult; either the run completes (final status
completed) or some step failed, in which case the final status is failed
and the returned report is the human-readable failure message, with empty
citations and sources, rather than a thrown exception. -/
theorem C1_conductResearch_total (env : Heavy.LeadEnv) (maxAgents : Option ℕ)
    (q : Heavy.ResearchQuery) :
    (Heavy.conductResearchFull env maxAgents q).2.rounds
      ≤ Heavy.jsOrNat q.max_iterations 5 ∧
    ((∃ e, (Heavy.conductResearchFull env maxAgents q).1.report
          = "Research failed: " ++ e ∧
        (Heavy.conductResearchFull env maxAgents q).1.citations = [] ∧
        (Heavy.conductResearchFull env maxAgents q).1.sources_used = [] ∧
        (Heavy.conductResearchFull env maxAgents q).2.statusLog.getLast?
          = some "failed") ∨
      (Heavy.conductResearchFull env maxAgents q).2.statusLog.getLast?
        = some "completed") := by
  simp only [Heavy.conductResearchFull]
  split
  case h_1 e c1 heq =>
    refine ⟨?_, Or.inl ⟨e, rfl, rfl, rfl, ?_⟩⟩
    · dsimp [Heavy.failResult]
      omega
    · dsimp [Heavy.failResult]
      rfl
  case h_2 plan c1 heq =>
    split
    case h_1 e2 heq2 =>
      refine ⟨?_, Or.inl ⟨e2, rfl, rfl, rfl, ?_⟩⟩
      · dsimp [Heavy.failResult]
        refine le_trans (Heavy.execLoop_rounds env maxAgents _ _ _ _ _) ?_
        dsimp only
        omega
      · dsimp [Heavy.failResult]
        simp [List.getLast?_concat]
    case h_2 report heq2 =>
      split
      case h_1 e3 heq3 =>
        refine ⟨?_, Or.inl ⟨e3, rfl, rfl, rfl, ?_⟩⟩
        · dsimp [Heavy.failResult]
          refine le_trans (Heavy.execLoop_rounds env maxAgents _ _ _ _ _) ?_
          dsimp only
          omega
        · dsimp [Heavy.failResult]
          simp [List.getLast?_concat]
      case h_2 cited heq3 =>
        refine ⟨?_, Or.inr ?_⟩
        · dsimp only
          refine le_trans (Heavy.execLoop_rounds env maxAgents _ _ _ _ _) ?_
          dsimp only
          omega
        · dsimp only
          simp [List.getLast?_concat]

/-- The loop invariant instantiated at the initial state built by
conductResearchFull after a successful planning phase: all accumulated task
ids stay duplicate free and every persisted snapshot is well formed. -/
theorem execLoop_post_plan (env : Heavy.LeadEnv) (maxAgents : Option ℕ)
    (q : Heavy.ResearchQuery) (plan : Heavy.ResearchPlan) (c1 : ℕ)
    (hnd : (plan.subtasks.map (fun t => t.task_id)).Nodup)
    (hb : ∀ t ∈ plan.subtasks, ∃ n < c1, t.task_id = Heavy.uuid n) :
    (((Heavy.execLoop env maxAgents (Heavy.jsOrNat q.max_iterations 5)
        (Heavy.jsOrNat q.max_iterations 5 + 1)
        ⟨Heavy.uuid 0, q.query, plan, [], plan.subtasks, 0, 0, 0⟩ []
        ⟨c1, ["planning", "executing"],
          [⟨Heavy.uuid 0, q.query, plan, [], plan.subtasks, 0, 0, 0⟩], 0,
          plan.subtasks, [], []⟩).2.2.allTasks.map
        (fun t => t.task_id)).Nodup) ∧
    ∀ c ∈ (Heavy.execLoop env maxAgents (Heavy.jsOrNat q.max_iterations 5)
        (Heavy.jsOrNat q.max_iterations 5 + 1)
        ⟨Heavy.uuid 0, q.query, plan, [], plan.subtasks, 0, 0, 0⟩ []
        ⟨c1, ["planning", "executing"],
          [⟨Heavy.uuid 0, q.query, plan, [], plan.subtasks, 0, 0, 0⟩], 0,
          plan.subtasks, [], []⟩).2.2.snapshots,
      ((c.pending_tasks.map (fun t => t.task_id)).Nodup ∧
        ∀ id ∈ c.pending_tasks.map (fun t => t.task_id),
          id ∉ c.completed_tasks.map (fun r => r.task_id)) := by
  have H := Heavy.execLoop_inv env maxAgents (Heavy.jsOrNat q.max_iterations 5)
    (Heavy.jsOrNat q.max_iterations 5 + 1)
    ⟨Heavy.uuid 0, q.query, plan, [], plan.subtasks, 0, 0, 0⟩ []
    ⟨c1, ["planning", "executing"],
      [⟨Heavy.uuid 0, q.query, plan, [], plan.subtasks, 0, 0, 0⟩], 0,
      plan.subtasks, [], []⟩
    ⟨hnd, List.nodup_nil, hb, by simp [Heavy.ResultIdsBelow], by simp⟩
    hnd hb
    (fun s hs => by
      rcases List.mem_singleton.mp hs with rfl
      exact ⟨hnd, by simp⟩)
  exact ⟨H.2.1, fun c hc => H.2.2.2 c hc⟩

/-- Claim C8: across one research session, every created task id (the
plan's initial subtasks plus every follow-up task appended over the
iterations) is unique, and at every persisted observation point the pending
ids are duplicate free and no id sits in both pending_tasks and
completed_tasks. -/
theorem C8_task_ids_unique (env : Heavy.LeadEnv) (maxAgents : Option ℕ)
    (q : Heavy.ResearchQuery) :
    (((Heavy.conductResearchFull env maxAgents q).2.allTasks.map
        (fun t => t.task_id)).Nodup) ∧
    ∀ c ∈ (Heavy.conductResearchFull env maxAgents q).2.snapshots,
      ((c.pending_tasks.map (fun t => t.task_id)).Nodup ∧
        ∀ id ∈ c.pending_tasks.map (fun t => t.task_id),
          id ∉ c.completed_tasks.map (fun r => r.task_id)) := by
  simp only [Heavy.conductResearchFull]
  split
  case h_1 e c1 heq =>
    dsimp [Heavy.failResult]
    exact ⟨List.nodup_nil, by simp⟩
  case h_2 plan c1 heq =>
    obtain ⟨hle, hnd, hb⟩ :=
      Heavy.createResearchPlan_ok_ids _ _ _ _ _ _ _ heq
    have H := execLoop_post_plan env maxAgents q plan c1 hnd hb
    split
    case h_1 e2 heq2 =>
      dsimp [Heavy.failResult]
      exact H
    case h_2 report heq2 =>
      split
      case h_1 e3 heq3 =>
        dsimp [Heavy.failResult]
        exact H
      case h_2 cited heq3 =>
        dsimp only
        exact H
/-- Claim C10: in a successfully completed session, sources_used is the
concatenation of every settled SubAgentResult's sources in task-completion
order with no deduplication across tasks: the per-URL multiplicity of
sources_used is the sum of the per-task multiplicities, so a URL returned
by several subagents appears several times. -/
theorem C10_sources_concatenated (env : Heavy.LeadEnv) (maxAgents : Option ℕ)
    (q : Heavy.ResearchQuery)
    (hdone : (Heavy.conductResearchFull env maxAgents q).2.statusLog.getLast?
      = some "completed") :
    (Heavy.conductResearchFull env maxAgents q).1.sources_used
      = (Heavy.conductResearchFull env maxAgents q).2.taskResults.flatMap
          (fun r => r.sources) ∧
    (Heavy.conductResearchFull env maxAgents q).2.taskResults
      = (Heavy.conductResearchFull env maxAgents q).2.finalCompleted ∧
    ∀ url : String,
      (Heavy.conductResearchFull env maxAgents q).1.sources_used.countP
          (fun s => s.url == url)
        = ((Heavy.conductResearchFull env maxAgents q).2.taskResults.map
            (fun r => r.sources.countP (fun s => s.url == url))).sum := by
  revert hdone
  simp only [Heavy.conductResearchFull]
  split
  case h_1 e c1 heq =>
    intro hdone
    exact absurd hdone (by simp [Heavy.failResult, List.getLast?_concat])
  case h_2 plan c1 heq =>
    split
    case h_1 e2 heq2 =>
      intro hdone
      exact absurd hdone (by simp [Heavy.failResult, List.getLast?_concat])
    case h_2 report heq2 =>
      split
      case h_1 e3 heq3 =>
        intro hdone
        exact absurd hdone (by simp [Heavy.failResult, List.getLast?_concat])
      case h_2 cited heq3 =>
        intro _
        dsimp only
        refine ⟨rfl, ?_, fun url => Heavy.countP_flatMap _ _ _⟩
        obtain ⟨delta, h1, h2⟩ := Heavy.execLoop_acc env maxAgents
          (Heavy.jsOrNat q.max_iterations 5)
          (Heavy.jsOrNat q.max_iterations 5 + 1)
          ⟨Heavy.uuid 0, q.query, plan, [], plan.subtasks, 0, 0, 0⟩ []
          ⟨c1, ["planning"] ++ ["executing"],
            [⟨Heavy.uuid 0, q.query, plan, [], plan.subtasks, 0, 0, 0⟩], 0,
            plan.subtasks, [], []⟩
        simp only [List.nil_append] at h1 h2
        rw [h1, h2]
/-- C10 witness: with both planned subagents returning the same URL and no
follow-up requested, the session completes and the theorem applies; the
resulting sources_used holds that URL twice. -/
theorem C10_witness :
    (Heavy.conductResearchFull Heavy.w10env none Heavy.w10q).1.sources_used
        = (Heavy.conductResearchFull Heavy.w10env none
            Heavy.w10q).2.taskResults.flatMap (fun r => r.sources) ∧
      (Heavy.conductResearchFull Heavy.w10env none Heavy.w10q).1.sources_used
        = [Heavy.w10src, Heavy.w10src] :=
  ⟨(C10_sources_concatenated Heavy.w10env none Heavy.w10q rfl).1, rfl⟩
namespace Heavy

/-- A pattern longer than the searched list never occurs. -/
theorem subIndex?_length_none (pat : List Char) :
    ∀ l : List Char, l.length < pat.length → subIndex? pat l = none := by
  intro l
  induction l with
  | nil =>
    intro h
    have : ¬ pat.isEmpty := by
      cases pat with
      | nil => simp at h
      | cons a t => simp [List.isEmpty]
    simp [subIndex?, this]
  | cons c t ih =>
    intro h
    have hpre : ¬ pat.isPrefixOf (c :: t) := by
      intro hp
      have := (List.isPrefixOf_iff_prefix.mp hp).length_le
      omega
    simp [subIndex?, hpre, ih (by simp at h ⊢; omega)]

/-- No occurrence of a pattern whose head character is absent from the
searched list. -/
theorem countSub_head_zero (hd : Char) (pt : List Char) :
    ∀ l : List Char, hd ∉ l → countSub (hd :: pt) l = 0 := by
  intro l
  induction l with
  | nil => intro _; rfl
  | cons c t ih =>
    intro h
    have hne : c ≠ hd := by
      intro he
      exact h (by simp [he])
    have hpre : ¬ (hd :: pt).isPrefixOf (c :: t) := by
      intro hp
      rcases List.isPrefixOf_iff_prefix.mp hp with ⟨s, hs⟩
      have : hd = c := by
        have := congrArg (fun l => l.head?) hs
        simpa using this
      exact hne this.symm
    simp [countSub, hpre, ih (fun hm => h (by simp [hm]))]

end Heavy

/-- C6 counterexample: with two claims matched above the confidence
threshold to the same source URL and neither claim text occurring in the
report, the matched count is 2 but the citations list has exactly 1 entry
and no inline [1] marker appears in the cited report, refuting the claimed
exact counts. -/
theorem C6_counterexample :
    (Heavy.matchClaimsToSources Heavy.c6claims Heavy.c6oracle
        Heavy.c6sources).length = 2 ∧
    (Heavy.addCitationsCore Heavy.c6report Heavy.c6claims Heavy.c6oracle
        Heavy.c6sources).2.length = 1 ∧
    Heavy.countSub ('[' :: (Heavy.natDigits 1 ++ [']']))
      (Heavy.addCitationsCore Heavy.c6report Heavy.c6claims Heavy.c6oracle
        Heavy.c6sources).1.data = 0 := by
  have h69 : ((6 : ℚ)/10 ≤ 9/10) := by norm_num
  have h61 : ((6 : ℚ)/10 ≤ 1) := by norm_num
  have hqs : Heavy.qualifiedSources Heavy.c6sources = [Heavy.c6source] := by
    simp [Heavy.qualifiedSources, Heavy.c6sources, Heavy.c6source, h69,
      List.insertionSort]
  have hms : Heavy.matchClaimsToSources Heavy.c6claims Heavy.c6oracle
      Heavy.c6sources
      = [{ claim := String.mk ['a', 'l', 'p', 'h', 'a'], position := 0
           source := Heavy.c6source, citationNumber := 1 },
         { claim := String.mk ['b', 'e', 't', 'a'], position := 10
           source := Heavy.c6source, citationNumber := 2 }] := by
    simp [Heavy.matchClaimsToSources, hqs, Heavy.matchLoop, Heavy.c6claims,
      Heavy.c6oracle, h61]
  refine ⟨by rw [hms]; rfl, ?_, ?_⟩
  · simp only [Heavy.addCitationsCore, hms]
    simp [Heavy.sortMatchesDesc, List.insertionSort, List.orderedInsert,
      Heavy.generateCitationList, Heavy.toCitation, Heavy.c6source]
  · simp only [Heavy.addCitationsCore, hms]
    have hsort : Heavy.sortMatchesDesc
        [{ claim := String.mk ['a', 'l', 'p', 'h', 'a'], position := 0
           source := Heavy.c6source, citationNumber := 1 },
         { claim := String.mk ['b', 'e', 't', 'a'], position := 10
           source := Heavy.c6source, citationNumber := 2 }]
        = [{ claim := String.mk ['b', 'e', 't', 'a'], position := 10
             source := Heavy.c6source, citationNumber := 2 },
           { claim := String.mk ['a', 'l', 'p', 'h', 'a'], position := 0
             source := Heavy.c6source, citationNumber := 1 }] := by
      simp [Heavy.sortMatchesDesc, List.insertionSort, List.orderedInsert]
    rw [hsort]
    have hskip1 : Heavy.subIndex?
        ((String.mk ['b', 'e', 't', 'a']).data.map Char.toLower)
        (Heavy.c6report.data.map Char.toLower) = none := by
      apply Heavy.subIndex?_length_none
      simp [Heavy.c6report]
    have hskip2 : Heavy.subIndex?
        ((String.mk ['a', 'l', 'p', 'h', 'a']).data.map Char.toLower)
        (Heavy.c6report.data.map Char.toLower) = none := by
      apply Heavy.subIndex?_length_none
      simp [Heavy.c6report]
    simp [Heavy.insertOne, hskip1, hskip2, Heavy.c6report]
    apply Heavy.countSub_head_zero
    decide
namespace Heavy

/-- The citation numbers handed out by the matching loop are consecutive
from the running counter. -/
theorem matchLoop_numbers (qs : List SearchResult)
    (oracle : ℕ → Except String ThinkV) :
    ∀ (cs : List ReportClaim) (i ctr : ℕ),
      (matchLoop qs oracle cs i ctr).map (fun m => m.citationNumber)
        = List.range' ctr (matchLoop qs oracle cs i ctr).length := by
  intro cs
  induction cs with
  | nil => intro i ctr; rfl
  | cons c rest ih =>
    intro i ctr
    simp only [matchLoop]
    split
    · exact ih (i + 1) ctr
    · split
      · split
        · split
          · simp only [List.map_cons, List.length_cons, ih (i + 1) (ctr + 1)]
            rw [List.range'_succ]
          · exact ih (i + 1) ctr
        · exact ih (i + 1) ctr
      · exact ih (i + 1) ctr

end Heavy
namespace Heavy

/-- A decimal digit character parses back to its value. -/
theorem digitVal_digitChar (d : ℕ) (h : d < 10) :
    digitVal (digitChar d) = some d := by
  interval_cases d <;> decide

/-- Every character produced by the digit printer is a decimal digit. -/
theorem natDigitsAux_digits (fuel : ℕ) :
    ∀ n, ∀ c ∈ natDigitsAux fuel n, ∃ d, d < 10 ∧ c = digitChar d := by
  induction fuel with
  | zero => intro n c hc; simp [natDigitsAux] at hc
  | succ fuel ih =>
    intro n c hc
    simp only [natDigitsAux] at hc
    split at hc
    case isTrue hn =>
      simp only [List.mem_singleton] at hc
      exact ⟨n, hn, hc⟩
    case isFalse hn =>
      rcases List.mem_append.mp hc with h1 | h2
      · exact ih _ c h1
      · simp only [List.mem_singleton] at h2
        exact ⟨n % 10, Nat.mod_lt _ (by norm_num), h2⟩

/-- Parsing a digit list followed by anything proceeds through the digit
list first. -/
theorem parseDigitsAux_append_digits :
    ∀ (A B : List Char) (acc : ℕ),
      (∀ c ∈ A, ∃ d, d < 10 ∧ c = digitChar d) →
      parseDigitsAux (A ++ B) acc = parseDigitsAux B (parseDigitsAux A acc) := by
  intro A
  induction A with
  | nil => intro B acc _; rfl
  | cons c t ih =>
    intro B acc hA
    obtain ⟨d, hd, rfl⟩ := hA c (by simp)
    simp only [List.cons_append, parseDigitsAux, digitVal_digitChar d hd]
    exact ih B _ (fun c hc => hA c (by simp [hc]))

/-- Parsing the printed digits of a number recovers the number on top of
the shifted accumulator. -/
theorem parseDigitsAux_natDigitsAux :
    ∀ (fuel n acc : ℕ), n < fuel →
      parseDigitsAux (natDigitsAux fuel n) acc
        = acc * 10 ^ (natDigitsAux fuel n).length + n := by
  intro fuel
  induction fuel with
  | zero => intro n acc h; omega
  | succ fuel ih =>
    intro n acc h
    by_cases hn : n < 10
    · simp [natDigitsAux, hn, parseDigitsAux, digitVal_digitChar n hn]
    · simp only [natDigitsAux, if_neg hn]
      rw [parseDigitsAux_append_digits _ _ _ (natDigitsAux_digits fuel (n / 10))]
      have hdiv : n / 10 < n := Nat.div_lt_self (by omega) (by norm_num)
      have hrec := ih (n / 10) acc (by omega)
      rw [hrec]
      simp only [parseDigitsAux, digitVal_digitChar (n % 10)
        (Nat.mod_lt _ (by norm_num)), List.length_append,
        List.length_singleton]
      calc (acc * 10 ^ (natDigitsAux fuel (n / 10)).length + n / 10) * 10
            + n % 10
          = acc * (10 ^ (natDigitsAux fuel (n / 10)).length * 10)
            + (n / 10 * 10 + n % 10) := by ring
        _ = acc * 10 ^ ((natDigitsAux fuel (n / 10)).length + 1) + n := by
            rw [pow_succ]
            congr 1
            omega

/-- parseInt inverts the decimal printer. -/
theorem parseIntNat_natToStr (n : ℕ) : parseIntNat (natToStr n) = n := by
  have h := parseDigitsAux_natDigitsAux (n + 1) n 0 (by omega)
  simp only [parseIntNat, natToStr, natDigits] at h ⊢
  simpa using h

end Heavy
namespace Heavy

/-- With pairwise distinct source URLs none of which was seen yet, the
dedup fold of _generateCitationList keeps every match. -/
theorem genfold_all :
    ∀ (ms : List CitationMatch) (acc1 : List Citation) (acc2 : List String),
      (∀ m ∈ ms, m.source.url ∉ acc2) →
      ((ms.map (fun m => m.source.url)).Nodup) →
      ms.foldl
          (fun acc m =>
            if acc.2.contains m.source.url then acc
            else (acc.1 ++ [toCitation m], acc.2 ++ [m.source.url]))
          (acc1, acc2)
        = (acc1 ++ ms.map toCitation,
           acc2 ++ ms.map (fun m => m.source.url)) := by
  intro ms
  induction ms with
  | nil => intro acc1 acc2 _ _; simp
  | cons m t ih =>
    intro acc1 acc2 hnew hnd
    rw [List.map_cons] at hnd
    have hnd' := List.nodup_cons.mp hnd
    have hc : (acc2.contains m.source.url) = false := by
      simp [hnew m (by simp)]
    simp only [List.foldl_cons, hc, Bool.false_eq_true, if_false]
    rw [ih (acc1 ++ [toCitation m]) (acc2 ++ [m.source.url])
      (by
        intro m' hm'
        simp only [List.mem_append, List.mem_singleton, not_or]
        refine ⟨hnew m' (by simp [hm']), ?_⟩
        intro he
        exact hnd'.1 (by
          simp only [List.mem_map]
          exact ⟨m', hm', he⟩))
      hnd'.2]
    simp

/-- The ascending range is sorted. -/
theorem sorted_le_range' (s k : ℕ) : (List.range' s k).Sorted (· ≤ ·) := by
  induction k generalizing s with
  | zero => simp
  | succ k ih =>
    rw [List.range'_succ]
    exact List.sorted_cons.mpr ⟨fun b hb => by
      have := (List.mem_range'_1.mp hb).1
      omega, ih (s + 1)⟩

/-- When the matched sources carry pairwise distinct URLs, the generated
citation list keeps one entry per match and its ids, re-sorted by numeric
value, are exactly the decimal ordinals of the citation numbers in
ascending order. -/
theorem genList_ids (ms : List CitationMatch)
    (hnum : ms.map (fun m => m.citationNumber) = List.range' 1 ms.length)
    (hurl : (ms.map (fun m => m.source.url)).Nodup) :
    (generateCitationList (sortMatchesDesc ms)).map (fun c => c.id)
      = (List.range' 1 ms.length).map natToStr := by
  have hperm : List.Perm (sortMatchesDesc ms) ms :=
    List.perm_insertionSort _ ms
  have hurl' : ((sortMatchesDesc ms).map
      (fun m => m.source.url)).Nodup := ((hperm.map _).nodup_iff).mpr hurl
  have hfold := genfold_all (sortMatchesDesc ms) [] [] (by simp) hurl'
  haveI hTot : IsTotal Citation
      (fun a b => parseIntNat a.id ≤ parseIntNat b.id) :=
    ⟨fun a b => le_total _ _⟩
  haveI hTrans : IsTrans Citation
      (fun a b => parseIntNat a.id ≤ parseIntNat b.id) :=
    ⟨fun _ _ _ hab hbc => le_trans hab hbc⟩
  have hgen : generateCitationList (sortMatchesDesc ms)
      = List.insertionSort (fun a b => parseIntNat a.id ≤ parseIntNat b.id)
          ((sortMatchesDesc ms).map toCitation) := by
    simp only [generateCitationList, hfold, List.nil_append]
  have hLperm : List.Perm (generateCitationList (sortMatchesDesc ms))
      ((sortMatchesDesc ms).map toCitation) := by
    rw [hgen]; exact List.perm_insertionSort _ _
  have hkeys_cs : ((sortMatchesDesc ms).map toCitation).map
      (fun c => parseIntNat c.id)
      = (sortMatchesDesc ms).map (fun m => m.citationNumber) := by
    rw [List.map_map]
    simp [Function.comp_def, toCitation, parseIntNat_natToStr]
  have hkeys_perm : List.Perm
      ((generateCitationList (sortMatchesDesc ms)).map
        (fun c => parseIntNat c.id))
      (List.range' 1 ms.length) := by
    refine ((hLperm.map _).trans ?_)
    rw [hkeys_cs, ← hnum]
    exact hperm.map _
  have hsortedL : List.Sorted
      (fun a b => parseIntNat a.id ≤ parseIntNat b.id)
      (generateCitationList (sortMatchesDesc ms)) := by
    rw [hgen]; exact List.sorted_insertionSort _ _
  have hkeysSorted : ((generateCitationList (sortMatchesDesc ms)).map
      (fun c => parseIntNat c.id)).Sorted (· ≤ ·) :=
    List.pairwise_map.mpr hsortedL
  have hkeysEq : (generateCitationList (sortMatchesDesc ms)).map
      (fun c => parseIntNat c.id) = List.range' 1 ms.length :=
    List.eq_of_perm_of_sorted hkeys_perm hkeysSorted
      (sorted_le_range' 1 ms.length)
  have hidform : ∀ c ∈ generateCitationList (sortMatchesDesc ms),
      c.id = natToStr (parseIntNat c.id) := by
    intro c hc
    have hc' : c ∈ (sortMatchesDesc ms).map toCitation :=
      hLperm.mem_iff.mp hc
    rcases List.mem_map.mp hc' with ⟨m, _, rfl⟩
    simp [toCitation, parseIntNat_natToStr]
  calc (generateCitationList (sortMatchesDesc ms)).map (fun c => c.id)
      = (generateCitationList (sortMatchesDesc ms)).map
          (fun c => natToStr (parseIntNat c.id)) :=
        List.map_congr_left hidform
    _ = ((generateCitationList (sortMatchesDesc ms)).map
          (fun c => parseIntNat c.id)).map natToStr := by
        rw [List.map_map]
        rfl
    _ = (List.range' 1 ms.length).map natToStr := by rw [hkeysEq]

end Heavy
namespace Heavy

/-- The empty pattern occurs at position zero. -/
theorem subIndex?_nil_pat (l : List Char) :
    subIndex? [] l = some 0 := by
  cases l with
  | nil => rfl
  | cons c t => simp [subIndex?, List.isPrefixOf]

/-- A prefix short enough to fit in the front block ignores an appended
tail. -/
theorem prefix_append_iff_left (pat X t : List Char)
    (h : pat.length ≤ X.length) :
    pat <+: (X ++ t) ↔ pat <+: X := by
  constructor
  · intro hp
    rw [List.prefix_iff_eq_take] at hp
    rw [List.take_append_of_le_length h] at hp
    exact List.prefix_iff_eq_take.mpr hp
  · intro hp
    exact hp.trans (X.prefix_append t)

/-- The first occurrence of a pattern ending exactly at the front block's
boundary is stable under appending a tail. -/
theorem subIndex?_append (pat C t : List Char)
    (hlen : pat.length ≤ C.length) :
    ∀ X : List Char, subIndex? pat (X ++ C) = some X.length →
      subIndex? pat (X ++ C ++ t) = some X.length := by
  intro X
  induction X with
  | nil =>
    intro h
    simp only [List.nil_append] at h ⊢
    cases C with
    | nil =>
      have hpat : pat = [] := by
        cases pat with
        | nil => rfl
        | cons a b => simp [subIndex?, List.isEmpty] at h
      subst hpat
      exact subIndex?_nil_pat t
    | cons c ct =>
      rw [subIndex?] at h
      split at h
      case isTrue hpre =>
        have hpre' : pat <+: (c :: ct) := List.isPrefixOf_iff_prefix.mp hpre
        have : pat <+: (c :: ct) ++ t := hpre'.trans ((c :: ct).prefix_append t)
        rw [List.cons_append, subIndex?,
          if_pos (List.isPrefixOf_iff_prefix.mpr (by simpa using this))]
        simp
      case isFalse hpre =>
        rcases Option.map_eq_some'.mp h with ⟨i, _, hi⟩
        simp only [List.length_nil] at hi
        omega
  | cons x xt ih =>
    intro h
    rw [List.cons_append, subIndex?] at h
    split at h
    case isTrue hpre =>
      simp only [Option.some.injEq, List.length_cons] at h
      omega
    case isFalse hpre =>
      rcases Option.map_eq_some'.mp h with ⟨i, hrec, hi⟩
      have hieq : i = xt.length := by
        simp only [List.length_cons] at hi
        omega
      subst hieq
      have hstep := ih hrec
      have hlenX : pat.length ≤ (x :: (xt ++ C)).length := by
        simp
        omega
      have hpre2 : ¬ pat.isPrefixOf (x :: (xt ++ C ++ t)) := by
        intro hp
        have hp' := List.isPrefixOf_iff_prefix.mp hp
        have : (x :: (xt ++ C ++ t)) = (x :: (xt ++ C)) ++ t := by simp
        rw [this] at hp'
        exact hpre (List.isPrefixOf_iff_prefix.mpr
          ((prefix_append_iff_left pat _ t hlenX).mp hp'))
      rw [List.cons_append, List.cons_append, subIndex?, if_neg ?hpre3]
      case hpre3 =>
        intro hp
        exact hpre2 (by simpa using hp)
      rw [hstep]
      simp

/-- Inserting an element below everything appends it at the end. -/
theorem orderedInsert_last {α : Type} (r : α → α → Prop) [DecidableRel r]
    (a : α) :
    ∀ l : List α, (∀ x ∈ l, ¬ r a x) → List.orderedInsert r a l = l ++ [a] := by
  intro l
  induction l with
  | nil => intro _; rfl
  | cons b t ih =>
    intro h
    rw [List.orderedInsert, if_neg (h b (by simp))]
    rw [ih (fun x hx => h x (by simp [hx]))]
    simp

/-- On matches whose positions strictly increase, the position-descending
stable sort is exactly the reversal. -/
theorem sortMatchesDesc_eq_reverse :
    ∀ ms : List CitationMatch,
      List.Pairwise (fun a b => a.position < b.position) ms →
      sortMatchesDesc ms = ms.reverse := by
  intro ms
  induction ms with
  | nil => intro _; rfl
  | cons m t ih =>
    intro h
    have hhead := (List.pairwise_cons.mp h).1
    have htail := (List.pairwise_cons.mp h).2
    simp only [sortMatchesDesc, List.insertionSort] at ih ⊢
    rw [ih htail]
    rw [orderedInsert_last _ m t.reverse
      (fun x hx => by
        have := hhead x (List.mem_reverse.mp hx)
        simp only [not_le]
        exact this)]
    simp

end Heavy
namespace Heavy

/-- The leading gap splits off the front of a decomposition. -/
theorem plainOf_append_left (a b : List Char) :
    ∀ its, plainOf (a ++ b) its = a ++ plainOf b its := by
  intro its
  cases its with
  | nil => rfl
  | cons x t =>
    obtain ⟨m, C, g⟩ := x
    simp [plainOf]

/-- The leading gap splits off the front of a cited decomposition. -/
theorem citedOf_append_left (a b : List Char) :
    ∀ its, citedOf (a ++ b) its = a ++ citedOf b its := by
  intro its
  cases its with
  | nil => rfl
  | cons x t =>
    obtain ⟨m, C, g⟩ := x
    simp [citedOf]

/-- Appending one item extends the plain document by its segment and gap. -/
theorem plainOf_snoc (m : CitationMatch) (C g : List Char) :
    ∀ (its : List (CitationMatch × List Char × List Char)) (g0 : List Char),
      plainOf g0 (its ++ [(m, C, g)]) = plainOf g0 its ++ C ++ g := by
  intro its
  induction its with
  | nil => intro g0; simp [plainOf]
  | cons x t ih =>
    obtain ⟨m', C', g'⟩ := x
    intro g0
    show g0 ++ C' ++ plainOf g' (t ++ [(m, C, g)])
      = (g0 ++ C' ++ plainOf g' t) ++ C ++ g
    rw [ih g']
    simp

/-- Appending one item extends the cited document by its segment, marker
and gap. -/
theorem citedOf_snoc (m : CitationMatch) (C g : List Char) :
    ∀ (its : List (CitationMatch × List Char × List Char)) (g0 : List Char),
      citedOf g0 (its ++ [(m, C, g)])
        = citedOf g0 its ++ C ++ markerChars m.citationNumber ++ g := by
  intro its
  induction its with
  | nil => intro g0; simp [citedOf]
  | cons x t ih =>
    obtain ⟨m', C', g'⟩ := x
    intro g0
    show g0 ++ C' ++ markerChars m'.citationNumber
        ++ citedOf g' (t ++ [(m, C, g)])
      = (g0 ++ C' ++ markerChars m'.citationNumber ++ citedOf g' t)
        ++ C ++ markerChars m.citationNumber ++ g
    rw [ih g']
    simp

/-- Splitting a well-formed decomposition at its last item. -/
theorem goodDecomp_snoc (m : CitationMatch) (C g : List Char) :
    ∀ (its : List (CitationMatch × List Char × List Char)) (g0 : List Char),
      GoodDecomp g0 (its ++ [(m, C, g)]) ↔
        GoodDecomp g0 its ∧
        (C.map Char.toLower = m.claim.data.map Char.toLower) ∧
        subIndex? (m.claim.data.map Char.toLower)
            ((plainOf g0 its ++ C).map Char.toLower)
          = some (plainOf g0 its).length := by
  intro its
  induction its with
  | nil =>
    intro g0
    simp [GoodDecomp, plainOf]
  | cons x t ih =>
    obtain ⟨m', C', g'⟩ := x
    intro g0
    rw [List.cons_append]
    have hpl : plainOf (g0 ++ C' ++ g') t = g0 ++ C' ++ plainOf g' t := by
      rw [List.append_assoc, plainOf_append_left, plainOf_append_left]
      simp
    constructor
    · intro h
      have h' : (C'.map Char.toLower = m'.claim.data.map Char.toLower) ∧
          subIndex? (m'.claim.data.map Char.toLower)
            ((g0 ++ C').map Char.toLower) = some g0.length ∧
          GoodDecomp (g0 ++ C' ++ g') (t ++ [(m, C, g)]) := h
      obtain ⟨h1, h2, h3⟩ := h'
      obtain ⟨h4, h5, h6⟩ := (ih (g0 ++ C' ++ g')).mp h3
      rw [hpl] at h6
      exact ⟨⟨h1, h2, h4⟩, h5, h6⟩
    · intro h
      have h' : ((C'.map Char.toLower = m'.claim.data.map Char.toLower) ∧
          subIndex? (m'.claim.data.map Char.toLower)
            ((g0 ++ C').map Char.toLower) = some g0.length ∧
          GoodDecomp (g0 ++ C' ++ g') t) ∧
          (C.map Char.toLower = m.claim.data.map Char.toLower) ∧
          subIndex? (m.claim.data.map Char.toLower)
            (((g0 ++ C' ++ plainOf g' t) ++ C).map Char.toLower)
          = some (g0 ++ C' ++ plainOf g' t).length := h
      obtain ⟨⟨h1, h2, h4⟩, h5, h6⟩ := h'
      rw [← hpl] at h6
      exact ⟨h1, h2, (ih (g0 ++ C' ++ g')).mpr ⟨h4, h5, h6⟩⟩

end Heavy
namespace Heavy

/-- Processing the matches of a well-formed decomposition in reverse claim
order splices exactly one marker after each claim segment: the source's
right-to-left insertion never disturbs the first occurrence of the
remaining claims. -/
theorem fold_insertOne_decomp :
    ∀ (its : List (CitationMatch × List Char × List Char))
      (g0 tail : List Char),
      GoodDecomp g0 its →
      List.foldl insertOne (plainOf g0 its ++ tail)
          ((its.map (fun x => x.1)).reverse)
        = citedOf g0 its ++ tail := by
  intro its
  induction its using List.reverseRecOn with
  | nil => intro g0 tail _; rfl
  | append_singleton its x ih =>
    obtain ⟨m, C, g⟩ := x
    intro g0 tail hgd
    rw [goodDecomp_snoc] at hgd
    obtain ⟨hgd', hlow, hsub⟩ := hgd
    rw [List.map_append, List.reverse_append]
    simp only [List.map_cons, List.map_nil, List.reverse_cons,
      List.reverse_nil, List.nil_append, List.singleton_append,
      List.foldl_cons]
    rw [plainOf_snoc, citedOf_snoc]
    have hlenC : m.claim.data.length = C.length := by
      have h := congrArg List.length hlow
      simpa using h.symm
    have hsub2 : subIndex? (m.claim.data.map Char.toLower)
        ((((plainOf g0 its ++ C ++ g) ++ tail)).map Char.toLower)
        = some (plainOf g0 its).length := by
      have h0 : subIndex? (m.claim.data.map Char.toLower)
          ((plainOf g0 its).map Char.toLower ++ C.map Char.toLower)
          = some ((plainOf g0 its).map Char.toLower).length := by
        rw [← List.map_append, List.length_map]
        exact hsub
      have h1 := subIndex?_append (m.claim.data.map Char.toLower)
        (C.map Char.toLower) ((g ++ tail).map Char.toLower)
        (by simp [hlenC]) ((plainOf g0 its).map Char.toLower) h0
      rw [List.length_map] at h1
      have heq : ((plainOf g0 its).map Char.toLower ++ C.map Char.toLower)
            ++ (g ++ tail).map Char.toLower
          = (((plainOf g0 its ++ C ++ g) ++ tail)).map Char.toLower := by
        simp [List.map_append]
      rw [heq] at h1
      exact h1
    have hins : insertOne ((plainOf g0 its ++ C ++ g) ++ tail) m
        = plainOf g0 its
            ++ (C ++ (markerChars m.citationNumber ++ (g ++ tail))) := by
      simp only [insertOne, hsub2]
      rw [hlenC]
      have hD : (plainOf g0 its ++ C ++ g) ++ tail
          = (plainOf g0 its ++ C) ++ (g ++ tail) := by simp
      rw [hD]
      have hlen2 : (plainOf g0 its).length + C.length
          = (plainOf g0 its ++ C).length := (List.length_append _ _).symm
      rw [hlen2, List.take_left, List.drop_left]
      simp
    rw [hins]
    have hN : plainOf g0 its
          ++ (C ++ (markerChars m.citationNumber ++ (g ++ tail)))
        = plainOf g0 its
          ++ (C ++ markerChars m.citationNumber ++ g ++ tail) := by simp
    rw [hN, ih g0 (C ++ markerChars m.citationNumber ++ g ++ tail) hgd']
    simp

end Heavy
namespace Heavy

/-- Occurrence counting skips any block missing the pattern's head
character. -/
theorem countSub_append_skip (hd : Char) (pt : List Char) :
    ∀ (X Y : List Char), hd ∉ X →
      countSub (hd :: pt) (X ++ Y) = countSub (hd :: pt) Y := by
  intro X Y
  induction X with
  | nil => intro _; rfl
  | cons x xt ih =>
    intro h
    have hx : x ≠ hd := fun he => h (by simp [he])
    have hpre : ¬ (hd :: pt).isPrefixOf (x :: (xt ++ Y)) := by
      intro hp
      rcases List.isPrefixOf_iff_prefix.mp hp with ⟨s, hs⟩
      have hh : hd = x := by
        have h2 := congrArg (fun l => l.head?) hs
        simpa using h2
      exact hx hh.symm
    rw [List.cons_append, countSub, if_neg hpre]
    simp [ih (fun hm => h (by simp [hm]))]

/-- Every printed digit character is a decimal digit. -/
theorem natDigits_digits (n : ℕ) :
    ∀ c ∈ natDigits n, ∃ d, d < 10 ∧ c = digitChar d :=
  fun c hc => natDigitsAux_digits (n + 1) n c hc

/-- A decimal digit character is neither bracket. -/
theorem digitChar_ne_brackets (d : ℕ) (h : d < 10) :
    digitChar d ≠ '[' ∧ digitChar d ≠ ']' := by
  interval_cases d <;> exact ⟨by decide, by decide⟩

/-- Printed digits never contain the closing bracket. -/
theorem natDigits_ne_rbracket (n : ℕ) : ∀ c ∈ natDigits n, c ≠ ']' := by
  intro c hc
  obtain ⟨d, hd, rfl⟩ := natDigits_digits n c hc
  exact (digitChar_ne_brackets d hd).2

/-- Printed digits never contain the opening bracket. -/
theorem natDigits_ne_lbracket (n : ℕ) : ∀ c ∈ natDigits n, c ≠ '[' := by
  intro c hc
  obtain ⟨d, hd, rfl⟩ := natDigits_digits n c hc
  exact (digitChar_ne_brackets d hd).1

/-- Two closing-bracket-terminated bracket-free words prefix-match exactly
when they are equal. -/
theorem digits_close_prefix :
    ∀ (A B rest : List Char),
      (∀ c ∈ A, c ≠ ']') → (∀ c ∈ B, c ≠ ']') →
      ((A ++ [']']) <+: (B ++ ']' :: rest) ↔ A = B) := by
  intro A
  induction A with
  | nil =>
    intro B rest hA hB
    cases B with
    | nil => simp
    | cons b bt =>
      simp only [List.nil_append, List.cons_append, List.cons_prefix_cons]
      constructor
      · rintro ⟨he, _⟩
        exact absurd he.symm (hB b (by simp))
      · intro hp
        exact absurd hp (by simp)
  | cons a as' ih =>
    intro B rest hA hB
    cases B with
    | nil =>
      simp only [List.cons_append, List.nil_append, List.cons_prefix_cons]
      constructor
      · rintro ⟨he, _⟩
        exact absurd he (hA a (by simp))
      · intro hp
        simp at hp
    | cons b bt =>
      simp only [List.cons_append, List.cons_prefix_cons]
      rw [ih bt rest (fun c hc => hA c (by simp [hc]))
        (fun c hc => hB c (by simp [hc]))]
      constructor
      · rintro ⟨rfl, rfl⟩
        rfl
      · intro he
        injection he with h1 h2
        exact ⟨h1, h2⟩

/-- A bracketed-number marker is a prefix of a bracketed-number block
exactly when the numbers agree. -/
theorem marker_prefix_iff (n k : ℕ) (rest : List Char) :
    (('[' :: (natDigits n ++ [']'])).isPrefixOf
        ('[' :: (natDigits k ++ ([']'] ++ rest))) = true) ↔ n = k := by
  rw [List.isPrefixOf_iff_prefix, List.cons_prefix_cons]
  have h1 : natDigits k ++ ([']'] ++ rest) = natDigits k ++ (']' :: rest) :=
    rfl
  rw [h1, digits_close_prefix (natDigits n) (natDigits k) rest
    (natDigits_ne_rbracket n) (natDigits_ne_rbracket k)]
  constructor
  · rintro ⟨_, he⟩
    exact natDigits_inj he
  · rintro rfl
    exact ⟨rfl, rfl⟩

end Heavy
namespace Heavy

/-- A character absent from the plain document is absent from every gap and
segment of its decomposition. -/
theorem plainOf_not_mem (c : Char) :
    ∀ (its : List (CitationMatch × List Char × List Char)) (g0 : List Char),
      c ∉ plainOf g0 its →
      c ∉ g0 ∧ ∀ x ∈ its, c ∉ x.2.1 ∧ c ∉ x.2.2 := by
  intro its
  induction its with
  | nil => intro g0 h; exact ⟨h, by simp⟩
  | cons x t ih =>
    obtain ⟨m, C, g⟩ := x
    intro g0 h
    have h' : c ∉ g0 ++ C ++ plainOf g t := h
    simp only [List.mem_append, not_or] at h'
    obtain ⟨⟨hg0, hC⟩, hrest⟩ := h'
    obtain ⟨hg, hx⟩ := ih g hrest
    refine ⟨hg0, ?_⟩
    intro y hy
    rcases List.mem_cons.mp hy with rfl | hy'
    · exact ⟨hC, hg⟩
    · exact hx y hy'

/-- In a cited document over bracket-free segments, the bracketed number n
occurs exactly as often as n occurs among the citation numbers. -/
theorem countSub_citedOf (n : ℕ) :
    ∀ (its : List (CitationMatch × List Char × List Char)) (g0 : List Char),
      '[' ∉ g0 → (∀ x ∈ its, '[' ∉ x.2.1 ∧ '[' ∉ x.2.2) →
      countSub ('[' :: (natDigits n ++ [']'])) (citedOf g0 its)
        = (its.map (fun x => x.1.citationNumber)).count n := by
  intro its
  induction its with
  | nil =>
    intro g0 hg0 _
    simpa [citedOf] using
      countSub_head_zero '[' (natDigits n ++ [']']) g0 hg0
  | cons x t ih =>
    obtain ⟨m, C, g⟩ := x
    intro g0 hg0 hall
    have hC : '[' ∉ C := (hall (m, C, g) (by simp)).1
    have hg : '[' ∉ g := (hall (m, C, g) (by simp)).2
    have hre : citedOf g0 ((m, C, g) :: t)
        = (g0 ++ C ++ [' '])
          ++ ('[' :: (natDigits m.citationNumber
              ++ ([']'] ++ citedOf g t))) := by
      simp [citedOf, markerChars]
    rw [hre]
    rw [countSub_append_skip '[' _ _ _ (by
      simp only [List.mem_append, List.mem_singleton, not_or]
      exact ⟨⟨hg0, hC⟩, by decide⟩)]
    rw [countSub]
    have htail : countSub ('[' :: (natDigits n ++ [']']))
        (natDigits m.citationNumber ++ ([']'] ++ citedOf g t))
        = (t.map (fun x => x.1.citationNumber)).count n := by
      have hREST : natDigits m.citationNumber ++ ([']'] ++ citedOf g t)
          = (natDigits m.citationNumber ++ [']']) ++ citedOf g t := by simp
      rw [hREST, countSub_append_skip '[' _ _ _ (by
        intro hx
        rcases List.mem_append.mp hx with h1 | h2
        · exact natDigits_ne_lbracket _ _ h1 rfl
        · simp at h2)]
      exact ih g hg (fun y hy => hall y (by simp [hy]))
    rw [htail]
    simp only [List.map_cons, List.count_cons]
    by_cases hn : n = m.citationNumber
    · rw [if_pos ((marker_prefix_iff n m.citationNumber _).mpr hn)]
      simp [hn]
      omega
    · rw [if_neg (fun hp =>
        hn ((marker_prefix_iff n m.citationNumber _).mp hp))]
      have hnm : ¬ (m.citationNumber = n) := fun h => hn h.symm
      simp [hnm]

end Heavy
/-- Claim C6 (amended): within one addCitations call that matches k claims
at confidence at least 0.6, the matches receive strictly increasing
citation numbers 1..k in claim order; when the k matched source URLs are
pairwise distinct, the returned citations list has exactly k entries whose
ids are the decimal ordinals 1..k in ascending order; and when every
matched claim occurs case-insensitively in the report exactly at its
decomposition segment, the claim positions strictly increase in claim
order, and the report is free of opening brackets, each marker [1]..[k]
appears exactly once in the cited report. Without those provisos the
original exact counts fail (see the counterexample): duplicate URLs are
deduplicated and a claim absent from the report inserts no marker. -/
theorem C6_citation_pipeline (report : String)
    (claims : List Heavy.ReportClaim)
    (oracle : ℕ → Except String Heavy.ThinkV)
    (sources : List Heavy.SearchResult) :
    (Heavy.matchClaimsToSources claims oracle sources).map
        (fun m => m.citationNumber)
      = List.range' 1
          (Heavy.matchClaimsToSources claims oracle sources).length ∧
    (((Heavy.matchClaimsToSources claims oracle sources).map
        (fun m => m.source.url)).Nodup →
      (Heavy.addCitationsCore report claims oracle sources).2.map
          (fun c => c.id)
        = (List.range' 1
            (Heavy.matchClaimsToSources claims oracle
              sources).length).map Heavy.natToStr) ∧
    (∀ (g0 : List Char)
        (its : List (Heavy.CitationMatch × List Char × List Char)),
      Heavy.matchClaimsToSources claims oracle sources
        = its.map (fun x => x.1) →
      report.data = Heavy.plainOf g0 its →
      Heavy.GoodDecomp g0 its →
      List.Pairwise (fun a b => a.1.position < b.1.position) its →
      '[' ∉ Heavy.plainOf g0 its →
      ∀ n, 1 ≤ n →
        n ≤ (Heavy.matchClaimsToSources claims oracle sources).length →
        Heavy.countSub ('[' :: (Heavy.natDigits n ++ [']']))
          (Heavy.addCitationsCore report claims oracle
            sources).1.data = 1) := by
  have ha : (Heavy.matchClaimsToSources claims oracle sources).map
      (fun m => m.citationNumber)
      = List.range' 1
          (Heavy.matchClaimsToSources claims oracle sources).length :=
    Heavy.matchLoop_numbers (Heavy.qualifiedSources sources) oracle claims 0 1
  refine ⟨ha, ?_, ?_⟩
  · intro hurl
    simp only [Heavy.addCitationsCore]
    exact Heavy.genList_ids _ ha hurl
  · intro g0 its hms hrep hgd hpw hbr n h1 h2
    simp only [Heavy.addCitationsCore]
    show Heavy.countSub ('[' :: (Heavy.natDigits n ++ [']']))
        (List.foldl Heavy.insertOne report.data
          (Heavy.sortMatchesDesc
            (Heavy.matchClaimsToSources claims oracle sources))) = 1
    have hsort : Heavy.sortMatchesDesc
        (Heavy.matchClaimsToSources claims oracle sources)
        = (its.map (fun x => x.1)).reverse := by
      rw [hms]
      exact Heavy.sortMatchesDesc_eq_reverse _ (List.pairwise_map.mpr hpw)
    rw [hrep, hsort]
    have hfold := Heavy.fold_insertOne_decomp its g0 [] hgd
    rw [List.append_nil, List.append_nil] at hfold
    rw [hfold]
    have hbr' := Heavy.plainOf_not_mem '[' its g0 hbr
    rw [Heavy.countSub_citedOf n its g0 hbr'.1 hbr'.2]
    have hmap : its.map (fun x => x.1.citationNumber)
        = (Heavy.matchClaimsToSources claims oracle sources).map
            (fun m => m.citationNumber) := by
      rw [hms, List.map_map]
      rfl
    rw [hmap, ha]
    exact List.count_eq_one_of_mem (List.nodup_range' 1 _)
      (List.mem_range'_1.mpr ⟨h1, by omega⟩)
/-- C6 witness: two claims occurring in order in a bracket-free report,
matched to two sources with distinct URLs; the citation ids come out as
the ordinals 1 and 2 and each marker appears exactly once in the cited
report. -/
theorem C6_witness :
    (Heavy.addCitationsCore Heavy.w6report Heavy.w6claims Heavy.w6oracle
        Heavy.w6sources).2.map (fun c => c.id)
      = [Heavy.natToStr 1, Heavy.natToStr 2] ∧
    Heavy.countSub ('[' :: (Heavy.natDigits 1 ++ [']']))
      (Heavy.addCitationsCore Heavy.w6report Heavy.w6claims Heavy.w6oracle
        Heavy.w6sources).1.data = 1 ∧
    Heavy.countSub ('[' :: (Heavy.natDigits 2 ++ [']']))
      (Heavy.addCitationsCore Heavy.w6report Heavy.w6claims Heavy.w6oracle
        Heavy.w6sources).1.data = 1 := by
  obtain ⟨ha, hb, hc⟩ := C6_citation_pipeline Heavy.w6report Heavy.w6claims
    Heavy.w6oracle Heavy.w6sources
  have h69 : ((6 : ℚ)/10 ≤ 9/10) := by norm_num
  have h61 : ((6 : ℚ)/10 ≤ 1) := by norm_num
  have h99 : ((9 : ℚ)/10 ≤ 9/10) := le_refl _
  have hcomp : Heavy.matchClaimsToSources Heavy.w6claims Heavy.w6oracle
      Heavy.w6sources = [Heavy.w6m1, Heavy.w6m2] := by
    simp [Heavy.matchClaimsToSources, Heavy.qualifiedSources,
      Heavy.w6sources, Heavy.w6srcA, Heavy.w6srcB, h69, h61, h99,
      List.insertionSort, List.orderedInsert, Heavy.matchLoop,
      Heavy.w6claims, Heavy.w6oracle, Heavy.w6m1, Heavy.w6m2]
  refine ⟨?_, ?_, ?_⟩
  · have hb' := hb (by rw [hcomp]; decide)
    rw [hcomp] at hb'
    simpa [List.range'] using hb'
  · exact hc Heavy.w6g0 Heavy.w6its (by rw [hcomp]; rfl) rfl
      ⟨by decide, by decide, by decide, by decide, trivial⟩
      (by decide) (by decide) 1 (by decide) (by rw [hcomp]; decide)
  · exact hc Heavy.w6g0 Heavy.w6its (by rw [hcomp]; rfl) rfl
      ⟨by decide, by decide, by decide, by decide, trivial⟩
      (by decide) (by decide) 2 (by decide) (by rw [hcomp]; decide)
